import Mathlib

/-!
# Verification of the SSV QBFT consensus engine specification

A shallow embedding, in Lean 4, of the parts of the `ssv` repository (Go)
that the specification's claims talk about:

* the quorum fields computed by `ShareFromValidatorEvent`
  (`operator/validator/utils.go`),
* the commit-quorum search `longestUniqueSignersForRoundAndValue` and
  commit aggregation `uponCommitMsg` (qbft instance, commit path),
* the proposal handling `UponProposalMsg` and validation
  `ValidateProposalMsg` / `Justify` (qbft instance, proposal path),
* the future-message handling `UponFutureMsg`
  (`protocol/qbft/controller/future_msg.go`),
* the decided-history sync handler `HistoryHandler` and
  `SyncMessage.UpdateResults`,
* height/round monotonicity of the instance and controller.

Machine integers (`uint64` in Go) are modelled as `Nat` with explicit
`% 2 ^ 64` where overflow can matter.  Byte strings are `List Nat`.
BLS cryptography is abstracted: signature-verification outcomes are
passed in as boolean-valued parameters.  Go functions that return
errors are modelled with `Except String`.
-/

namespace SSV

/-- Operator identifier (`spectypes.OperatorID`, a `uint64`). -/
abbrev OperatorID := Nat

/-- QBFT round number (`specqbft.Round`, a `uint64`). -/
abbrev Round := Nat

/-- QBFT height (`specqbft.Height`, a `uint64`). -/
abbrev Height := Nat

/-- A byte string (`[]byte` in Go). -/
abbrev Value := List Nat

/-! ## Messages

`specqbft.Message.Data` holds an encoded, type-specific payload.  We
model the bytes by their decoded content: `GetPrepareData`,
`GetCommitData`, `GetRoundChangeData` and `GetProposalData` succeed
exactly when the payload has the matching shape, and fail (decode
error) otherwise.  Justification messages carried inside a proposal
payload are themselves signed messages; the code only ever decodes
them as ROUND-CHANGE or PREPARE messages, so they are given the flat
payload type `JData` (a nested proposal payload is never inspected by
any code under study and is subsumed by `JData.rawBytes`). -/

/-- Message type tags (`specqbft.MsgType`). -/
inductive MsgType where
  | proposalMsgType
  | prepareMsgType
  | commitMsgType
  | roundChangeMsgType
  deriving DecidableEq, Repr

/-- Payload of a justification message (decoded `Message.Data`). -/
inductive JData where
  | prepareData (data : Value)
  | commitData (data : Value)
  | roundChangeData (preparedRound : Round) (preparedValue : Value)
  | rawBytes (b : Value)
  deriving DecidableEq, Repr

/-- A justification-level `specqbft.Message`. -/
structure JMessage where
  msgType : MsgType
  height : Height
  round : Round
  identifier : Value
  data : JData
  deriving DecidableEq, Repr

/-- A justification-level `specqbft.SignedMessage`.  The `signature`
is a list of the constituent raw BLS signatures (aggregation is signer
and signature folding; verification is abstracted). -/
structure JSignedMessage where
  signature : List Value
  signers : List OperatorID
  message : JMessage
  deriving DecidableEq, Repr

/-- Decoded `Message.Data` of a top-level message. -/
inductive MsgData where
  | proposalData (data : Value) (roundChangeJustification : List JSignedMessage)
      (prepareJustification : List JSignedMessage)
  | prepareData (data : Value)
  | commitData (data : Value)
  | roundChangeData (preparedRound : Round) (preparedValue : Value)
  | rawBytes (b : Value)
  deriving DecidableEq, Repr

/-- A top-level `specqbft.Message`. -/
structure Message where
  msgType : MsgType
  height : Height
  round : Round
  identifier : Value
  data : MsgData
  deriving DecidableEq, Repr

/-- A top-level `specqbft.SignedMessage`. -/
structure SignedMessage where
  signature : List Value
  signers : List OperatorID
  message : Message
  deriving DecidableEq, Repr

/-- `SignedMessage.GetSigners`. -/
def SignedMessage.GetSigners (m : SignedMessage) : List OperatorID := m.signers

/-- `JSignedMessage` variant of `GetSigners`. -/
def JSignedMessage.GetSigners (m : JSignedMessage) : List OperatorID := m.signers

/-! ## C1: quorum fields of `ShareFromValidatorEvent`

`operator/validator/utils.go` lines 99-101 (and the identical
`src/unnamed/part_008` lines 93-95):

```
f := uint64(len(committee)-1) / 3
validatorShare.Quorum = 3 * f
validatorShare.PartialQuorum = 2 * f
```

`len(committee)` is a non-negative Go `int`; `uint64(len(committee)-1)`
wraps modulo `2 ^ 64` when the committee is empty. -/

/-- Conversion of a (possibly negative) Go integer to `uint64`
(two's-complement wrap), as a `Nat`. -/
def goUint64OfInt (i : Int) : Nat := (i.emod (2 ^ 64)).toNat

/-- `f := uint64(len(committee)-1) / 3` from `ShareFromValidatorEvent`,
as a function of the committee length. -/
def shareFromValidatorEventF (committeeLen : Nat) : Nat :=
  goUint64OfInt ((committeeLen : Int) - 1) / 3

/-- `validatorShare.Quorum = 3 * f` from `ShareFromValidatorEvent`
(`uint64` multiplication). -/
def shareFromValidatorEventQuorum (committeeLen : Nat) : Nat :=
  3 * shareFromValidatorEventF committeeLen % 2 ^ 64

/-- `validatorShare.PartialQuorum = 2 * f` from `ShareFromValidatorEvent`
(`uint64` multiplication). -/
def shareFromValidatorEventPartialQuorum (committeeLen : Nat) : Nat :=
  2 * shareFromValidatorEventF committeeLen % 2 ^ 64

/-- For a nonempty committee the wrap in `uint64(len(committee)-1)`
does not fire. -/
theorem shareFromValidatorEventF_eq (n : Nat) (h1 : 1 ≤ n) (h2 : n < 2 ^ 64) :
    shareFromValidatorEventF n = (n - 1) / 3 := by
  unfold shareFromValidatorEventF goUint64OfInt
  have hnn : (0 : Int) ≤ (n : Int) - 1 := by
    have : (1 : Int) ≤ (n : Int) := by exact_mod_cast h1
    omega
  have hlt : (n : Int) - 1 < 2 ^ 64 := by
    have : (n : Int) < 2 ^ 64 := by exact_mod_cast h2
    omega
  have hmod : ((n : Int) - 1).emod (2 ^ 64) = (n : Int) - 1 :=
    Int.emod_eq_of_lt hnn hlt
  rw [hmod]
  have : ((n : Int) - 1).toNat = n - 1 := by omega
  rw [this]

/-- C1 (counterexample): for committee size `N = 7 = 3·2+1` the claim
predicts `Quorum = 2f+1 = 5` and `PartialQuorum = f+1 = 3`, but
`ShareFromValidatorEvent` sets `Quorum = 3f = 6` and
`PartialQuorum = 2f = 4`. -/
theorem C1_counterexample :
    ¬ (shareFromValidatorEventQuorum 7 = 2 * 2 + 1 ∧
       shareFromValidatorEventPartialQuorum 7 = 2 + 1) := by decide

/-- C1 (amended): for every committee of size `N ≥ 1` (below `2 ^ 64`),
the Share built by `ShareFromValidatorEvent` has `Quorum = 3f` and
`PartialQuorum = 2f` where `f = (N-1)/3`; in particular for committee
sizes `N = 1..13` the quorum values are
`{0,0,0,3,3,3,6,6,6,9,9,9,12}` (equal to the claimed `2f+1` only at
`N = 4`). -/
theorem C1_amended_quorums (n : Nat) (h1 : 1 ≤ n) (h2 : n < 2 ^ 64) :
    shareFromValidatorEventQuorum n = 3 * ((n - 1) / 3) ∧
    shareFromValidatorEventPartialQuorum n = 2 * ((n - 1) / 3) ∧
    (List.range 13).map (fun k => shareFromValidatorEventQuorum (k + 1)) =
      [0, 0, 0, 3, 3, 3, 6, 6, 6, 9, 9, 9, 12] := by
  have hf := shareFromValidatorEventF_eq n h1 h2
  have hdle : (n - 1) / 3 * 3 ≤ n - 1 := Nat.div_mul_le_self (n - 1) 3
  refine ⟨?_, ?_, by decide⟩
  · unfold shareFromValidatorEventQuorum
    rw [hf]
    exact Nat.mod_eq_of_lt (by omega)
  · unfold shareFromValidatorEventPartialQuorum
    rw [hf]
    exact Nat.mod_eq_of_lt (by omega)

/-- C1 (witness): the amended statement evaluated at committee size 7. -/
theorem C1_witness :
    shareFromValidatorEventQuorum 7 = 3 * ((7 - 1) / 3) ∧
    shareFromValidatorEventPartialQuorum 7 = 2 * ((7 - 1) / 3) ∧
    (List.range 13).map (fun k => shareFromValidatorEventQuorum (k + 1)) =
      [0, 0, 0, 3, 3, 3, 6, 6, 6, 9, 9, 9, 12] :=
  C1_amended_quorums 7 (by norm_num) (by norm_num)

/-! ## C3: `longestUniqueSignersForRoundAndValue`

From `src/unnamed/part_002` lines 169-209 (package `instance`, commit
path of the v1 qbft instance).  The nested Go loops are written as two
recursive helpers: `collectDisjoint` is the inner `j` loop and
`longestScan` the outer `i` loop. -/

/-- `SignedMessage.CommonSigners(ids)` (ssv-spec): true iff the message
shares at least one signer with `ids`. -/
def CommonSigners (m : SignedMessage) (ids : List OperatorID) : Bool :=
  m.signers.any (fun id => decide (id ∈ ids))

/-- Modelled from the spec: the message container keeps per-round
collections of signed messages; `ReadOnlyMessagesByRound` returns the
round's messages in deterministic insertion order (nil when the round
is absent, which the caller treats as empty). -/
abbrev MessageContainer := List (Round × List SignedMessage)

/-- Modelled from the spec: `ReadOnlyMessagesByRound` of the message
container (`msgcont.MessageContainer`, declared outside the sources
under study). -/
def ReadOnlyMessagesByRound (c : MessageContainer) (r : Round) : List SignedMessage :=
  match c.lookup r with
  | some msgs => msgs
  | none => []

/-- Inner `j` loop of `longestUniqueSignersForRoundAndValue`: fold the
remaining messages into the current collection whenever the value
matches and no signer is shared. -/
def collectDisjoint (value : MsgData) :
    List SignedMessage → List OperatorID → List SignedMessage →
    List OperatorID × List SignedMessage
  | [], currentSigners, currentMsgs => (currentSigners, currentMsgs)
  | m2 :: tl, currentSigners, currentMsgs =>
    if m2.message.data ≠ value then
      collectDisjoint value tl currentSigners currentMsgs
    else if CommonSigners m2 currentSigners then
      collectDisjoint value tl currentSigners currentMsgs
    else
      collectDisjoint value tl (currentSigners ++ m2.GetSigners) (currentMsgs ++ [m2])

/-- Outer `i` loop of `longestUniqueSignersForRoundAndValue`: start a
greedy collection at every matching message and keep the longest
signer list found (strict improvement only, so ties keep the first). -/
def longestScan (value : MsgData) :
    List SignedMessage → List OperatorID → List SignedMessage →
    List OperatorID × List SignedMessage
  | [], signersRet, msgsRet => (signersRet, msgsRet)
  | m :: tl, signersRet, msgsRet =>
    if m.message.data ≠ value then
      longestScan value tl signersRet msgsRet
    else
      let cur := collectDisjoint value tl m.GetSigners [m]
      if signersRet.length < cur.1.length then
        longestScan value tl cur.1 cur.2
      else
        longestScan value tl signersRet msgsRet

/-- `longestUniqueSignersForRoundAndValue` (`src/unnamed/part_002`). -/
def longestUniqueSignersForRoundAndValue (container : MessageContainer)
    (round : Round) (value : MsgData) :
    List OperatorID × List SignedMessage :=
  longestScan value (ReadOnlyMessagesByRound container round) [] []

/-- Total signer count of a collection of messages. -/
def totalSigners (msgs : List SignedMessage) : Nat :=
  (msgs.map (fun m => m.signers.length)).sum

/-- Pairwise-disjoint signer sets. -/
def PairwiseDisjointSigners (msgs : List SignedMessage) : Prop :=
  msgs.Pairwise (fun a b => ∀ s ∈ b.signers, s ∉ a.signers)

/-- A collection of messages drawn from `pool` whose data all equal
`value` and whose signer sets are pairwise disjoint (the claim's
notion of an admissible collection). -/
def IsDisjointValueCollection (pool : List SignedMessage) (value : MsgData)
    (msgs : List SignedMessage) : Prop :=
  msgs.Sublist pool ∧ (∀ m ∈ msgs, m.message.data = value) ∧ PairwiseDisjointSigners msgs

/-- The claim's stated property of `longestUniqueSignersForRoundAndValue`
at one input: the returned messages form a *largest* (maximum total
signer count) admissible collection and the returned signers are their
duplicate-free union. -/
def LongestUniqueClaim (container : MessageContainer) (round : Round)
    (value : MsgData) : Prop :=
  let pool := ReadOnlyMessagesByRound container round
  let r := longestUniqueSignersForRoundAndValue container round value
  IsDisjointValueCollection pool value r.2 ∧
  (∀ other : List SignedMessage, IsDisjointValueCollection pool value other →
    totalSigners other ≤ totalSigners r.2) ∧
  r.1 = r.2.flatMap SignedMessage.GetSigners ∧ r.1.Nodup

/-- Behaviour of the inner greedy loop: it appends to the running
collection a sub-collection of the remaining messages, each matching
the value, each signer-disjoint from the running signers, and pairwise
signer-disjoint. -/
theorem collectDisjoint_spec (value : MsgData) :
    ∀ (rest : List SignedMessage) (cs : List OperatorID) (cm : List SignedMessage),
      ∃ extra : List SignedMessage,
        collectDisjoint value rest cs cm =
          (cs ++ extra.flatMap SignedMessage.GetSigners, cm ++ extra) ∧
        extra.Sublist rest ∧
        (∀ m ∈ extra, m.message.data = value) ∧
        (∀ m ∈ extra, ∀ s ∈ m.signers, s ∉ cs) ∧
        extra.Pairwise (fun a b => ∀ s ∈ b.signers, s ∉ a.signers) := by
  intro rest
  induction rest with
  | nil =>
    intro cs cm
    exact ⟨[], by simp [collectDisjoint], List.Sublist.refl _, by simp, by simp, by simp⟩
  | cons m2 tl ih =>
    intro cs cm
    by_cases hval : m2.message.data = value
    · by_cases hcom : CommonSigners m2 cs
      · obtain ⟨extra, heq, hsub, hv, hdisj, hpw⟩ := ih cs cm
        refine ⟨extra, ?_, hsub.cons m2, hv, hdisj, hpw⟩
        simpa [collectDisjoint, hval, hcom] using heq
      · obtain ⟨extra, heq, hsub, hv, hdisj, hpw⟩ :=
          ih (cs ++ m2.GetSigners) (cm ++ [m2])
        have hno : ∀ s ∈ m2.signers, s ∉ cs := by
          intro s hs hmem
          exact hcom (by
            simp only [CommonSigners, List.any_eq_true, decide_eq_true_eq]
            exact ⟨s, hs, hmem⟩)
        refine ⟨m2 :: extra, ?_, hsub.cons₂ m2, ?_, ?_, ?_⟩
        · have hstep : collectDisjoint value (m2 :: tl) cs cm =
              collectDisjoint value tl (cs ++ m2.GetSigners) (cm ++ [m2]) := by
            simp [collectDisjoint, hval, hcom]
          rw [hstep, heq]
          simp [SignedMessage.GetSigners, List.append_assoc]
        · intro m hm
          rcases List.mem_cons.mp hm with rfl | hm
          · exact hval
          · exact hv m hm
        · intro m hm s hs
          rcases List.mem_cons.mp hm with rfl | hm
          · exact hno s hs
          · intro hmem
            exact hdisj m hm s hs (by simp [SignedMessage.GetSigners, hmem])
        · refine List.Pairwise.cons ?_ hpw
          intro b hb s hs hmem
          exact hdisj b hb s hs (by simp [SignedMessage.GetSigners, hmem])
    · obtain ⟨extra, heq, hsub, hv, hdisj, hpw⟩ := ih cs cm
      refine ⟨extra, ?_, hsub.cons m2, hv, hdisj, hpw⟩
      simpa [collectDisjoint, hval] using heq

/-- Behaviour of the outer greedy loop: assuming the carried best
candidate is well-formed, the result is a well-formed admissible
collection drawn from `full`, with the signers being exactly the
concatenation of the chosen messages' signer lists. -/
theorem longestScan_spec (value : MsgData) (full : List SignedMessage) :
    ∀ (pool : List SignedMessage) (sr : List OperatorID) (mr : List SignedMessage),
      pool.Sublist full → mr.Sublist full →
      sr = mr.flatMap SignedMessage.GetSigners →
      (∀ m ∈ mr, m.message.data = value) →
      mr.Pairwise (fun a b => ∀ s ∈ b.signers, s ∉ a.signers) →
      (longestScan value pool sr mr).2.Sublist full ∧
      (longestScan value pool sr mr).1 =
        (longestScan value pool sr mr).2.flatMap SignedMessage.GetSigners ∧
      (∀ m ∈ (longestScan value pool sr mr).2, m.message.data = value) ∧
      (longestScan value pool sr mr).2.Pairwise
        (fun a b => ∀ s ∈ b.signers, s ∉ a.signers) := by
  intro pool
  induction pool with
  | nil =>
    intro sr mr _ hmr hsr hval hpw
    simp only [longestScan]
    exact ⟨hmr, hsr, hval, hpw⟩
  | cons m tl ih =>
    intro sr mr hpool hmr hsr hval hpw
    have htl : tl.Sublist full := (List.sublist_cons_self m tl).trans hpool
    by_cases hm : m.message.data = value
    · obtain ⟨extra, heq, hsub, hv, hdisj, hpwe⟩ :=
        collectDisjoint_spec value tl m.GetSigners [m]
      have hunf : longestScan value (m :: tl) sr mr =
          (if sr.length < (collectDisjoint value tl m.GetSigners [m]).1.length then
            longestScan value tl (collectDisjoint value tl m.GetSigners [m]).1
              (collectDisjoint value tl m.GetSigners [m]).2
          else longestScan value tl sr mr) := by
        simp [longestScan, hm]
      by_cases hlt : sr.length < (collectDisjoint value tl m.GetSigners [m]).1.length
      · rw [hunf, if_pos hlt]
        have hcons : (m :: extra).Sublist full :=
          ((hsub.cons₂ m).trans hpool)
        refine ih _ _ htl ?_ ?_ ?_ ?_
        · rw [heq]; simpa using hcons
        · rw [heq]
          simp [SignedMessage.GetSigners]
        · rw [heq]
          intro x hx
          rcases List.mem_cons.mp (by simpa using hx) with rfl | hx
          · exact hm
          · exact hv x hx
        · rw [heq]
          simp only [List.singleton_append]
          refine List.Pairwise.cons ?_ hpwe
          intro b hb s hs hmem
          exact hdisj b hb s hs (by simp [SignedMessage.GetSigners, hmem])
      · rw [hunf, if_neg hlt]
        exact ih sr mr htl hmr hsr hval hpw
    · have hunf : longestScan value (m :: tl) sr mr = longestScan value tl sr mr := by
        simp [longestScan, hm]
      rw [hunf]
      exact ih sr mr htl hmr hsr hval hpw

/-- Concatenating the signer lists of pairwise signer-disjoint
messages with duplicate-free signer lists yields a duplicate-free
list. -/
theorem flatMap_signers_nodup (msgs : List SignedMessage)
    (hn : ∀ m ∈ msgs, m.signers.Nodup)
    (hpw : msgs.Pairwise (fun a b => ∀ s ∈ b.signers, s ∉ a.signers)) :
    (msgs.flatMap SignedMessage.GetSigners).Nodup := by
  induction msgs with
  | nil => simp
  | cons m tl ih =>
    rw [List.flatMap_cons]
    refine List.Nodup.append (hn m (by simp)) (ih (fun x hx => hn x (by simp [hx]))
      (List.Pairwise.of_cons hpw)) ?_
    intro s hs hmem
    rw [List.mem_flatMap] at hmem
    obtain ⟨b, hb, hsb⟩ := hmem
    exact (List.pairwise_cons.mp hpw).1 b hb s hsb hs

/-- Behaviour of `longestUniqueSignersForRoundAndValue` on a container
holding exactly two messages of the requested value: the union of both
signer lists when they are disjoint, otherwise the longer single
message's signers (ties keep the first). -/
theorem longestUnique_two_messages (round : Round) (value : MsgData)
    (a b : SignedMessage) (ha : a.message.data = value) (hb : b.message.data = value)
    (hane : a.signers ≠ []) :
    longestUniqueSignersForRoundAndValue [(round, [a, b])] round value =
      if CommonSigners b a.signers then
        (if a.signers.length < b.signers.length then (b.signers, [b])
          else (a.signers, [a]))
      else (a.signers ++ b.signers, [a, b]) := by
  have hlen : 0 < a.signers.length := List.length_pos.mpr hane
  by_cases hcom : CommonSigners b a.signers
  · by_cases hord : a.signers.length < b.signers.length
    · simp [longestUniqueSignersForRoundAndValue, ReadOnlyMessagesByRound, longestScan,
        collectDisjoint, ha, hb, hcom, hord, SignedMessage.GetSigners, hlen]
    · simp [longestUniqueSignersForRoundAndValue, ReadOnlyMessagesByRound, longestScan,
        collectDisjoint, ha, hb, hcom, hord, SignedMessage.GetSigners, hlen]
  · have hnlt : ¬ (a.signers ++ b.signers).length < b.signers.length := by
      simp only [List.length_append]
      omega
    simp [longestUniqueSignersForRoundAndValue, ReadOnlyMessagesByRound, longestScan,
      collectDisjoint, ha, hb, hcom, SignedMessage.GetSigners, hlen, hnlt]

/-- Commit message with one-byte data 9, used for the C3 counterexample. -/
def c3value : MsgData := MsgData.commitData [9]

/-- Counterexample message, signer set 1. -/
def c3msg1 : SignedMessage :=
  ⟨[[1]], [1], ⟨MsgType.commitMsgType, 0, 1, [], c3value⟩⟩

/-- Counterexample message, signer set 2,3. -/
def c3msg2 : SignedMessage :=
  ⟨[[2]], [2, 3], ⟨MsgType.commitMsgType, 0, 1, [], c3value⟩⟩

/-- Counterexample message, signer set 2,4,5. -/
def c3msg3 : SignedMessage :=
  ⟨[[3]], [2, 4, 5], ⟨MsgType.commitMsgType, 0, 1, [], c3value⟩⟩

/-- Counterexample container: three commit messages over the same
value at round 1. -/
def c3container : MessageContainer := [(1, [c3msg1, c3msg2, c3msg3])]

/-- C3 (counterexample): on a container with commit messages whose
signer sets are 1, then 2,3, then 2,4,5 over the same value, the
greedy scan returns signers 1,2,3 (total 3), but the admissible
collection made of the first and third messages has 4 unique signers,
so the returned collection is not a largest one and the claim fails at
this input. -/
theorem C3_counterexample : ¬ LongestUniqueClaim c3container 1 c3value := by
  intro h
  have hmax := h.2.1 [c3msg1, c3msg3]
    ⟨by decide, by decide, by unfold PairwiseDisjointSigners; decide⟩
  have h4 : totalSigners [c3msg1, c3msg3] = 4 := by decide
  have h3 : totalSigners (longestUniqueSignersForRoundAndValue c3container 1 c3value).2 = 3 := by
    decide
  omega

/-- C3 (amended): `longestUniqueSignersForRoundAndValue` returns
`(signers, messages)` where `messages` is a collection of the
container's messages for the round whose data equals the value and
whose signer sets are pairwise disjoint (found greedily, first-fit
from each start index, so not necessarily of maximum total signer
count), and `signers` is the concatenation of their signer lists,
duplicate-free whenever every stored message's signer list is; for a
container holding exactly two messages over the value it returns the
union of both signer lists when they are disjoint and the longer
single message's signers when they share a signer (ties keep the
first). -/
theorem C3_amended_greedy (container : MessageContainer) (round : Round)
    (value : MsgData)
    (hnodup : ∀ m ∈ ReadOnlyMessagesByRound container round, m.signers.Nodup)
    (a b : SignedMessage) (ha : a.message.data = value)
    (hb : b.message.data = value) (hane : a.signers ≠ []) :
    (let r := longestUniqueSignersForRoundAndValue container round value
     IsDisjointValueCollection (ReadOnlyMessagesByRound container round) value r.2 ∧
     r.1 = r.2.flatMap SignedMessage.GetSigners ∧ r.1.Nodup) ∧
    longestUniqueSignersForRoundAndValue [(round, [a, b])] round value =
      (if CommonSigners b a.signers then
        (if a.signers.length < b.signers.length then (b.signers, [b])
          else (a.signers, [a]))
      else (a.signers ++ b.signers, [a, b])) := by
  refine ⟨?_, longestUnique_two_messages round value a b ha hb hane⟩
  unfold longestUniqueSignersForRoundAndValue
  obtain ⟨hsub, hflat, hval, hpw⟩ :=
    longestScan_spec value (ReadOnlyMessagesByRound container round)
      (ReadOnlyMessagesByRound container round) [] [] (List.Sublist.refl _)
      (List.nil_sublist _) (by simp) (by simp) (by simp)
  refine ⟨⟨hsub, hval, hpw⟩, hflat, ?_⟩
  rw [hflat]
  exact flatMap_signers_nodup _ (fun m hm => hnodup m (hsub.mem hm)) hpw

/-- C3 (witness): the amended statement evaluated on the
counterexample container and on the two-message pair with signer
lists 1,2 and 3. -/
theorem C3_witness :
    ((let r := longestUniqueSignersForRoundAndValue c3container 1 c3value
      IsDisjointValueCollection (ReadOnlyMessagesByRound c3container 1) c3value r.2 ∧
      r.1 = r.2.flatMap SignedMessage.GetSigners ∧ r.1.Nodup) ∧
     longestUniqueSignersForRoundAndValue [(1, [c3msg1, c3msg2])] 1 c3value =
       (if CommonSigners c3msg2 c3msg1.signers then
         (if c3msg1.signers.length < c3msg2.signers.length then
           (c3msg2.signers, [c3msg2])
           else (c3msg1.signers, [c3msg1]))
       else (c3msg1.signers ++ c3msg2.signers, [c3msg1, c3msg2]))) :=
  C3_amended_greedy c3container 1 c3value (by decide) c3msg1 c3msg2
    (by decide) (by decide) (by decide)

/-! ## C4: `uponCommitMsg`

From `src/unnamed/part_002` lines 113-167 (plus `aggregateCommitMsgs`,
lines 145-161).  The `sync.Once` guard `processCommitQuorumOnce` is a
boolean flag; `ProcessStageChange` (outside the sources under study)
is modelled from the spec as setting the instance stage. -/

/-- Instance round states (v1 `qbft.RoundState`). -/
inductive RoundState where
  | notStarted
  | proposal
  | prepare
  | commit
  | changeRound
  | decided
  | stopped
  deriving DecidableEq, Repr

/-- Modelled from the spec: the v1 `beacon.Share` committee view
(declared outside the sources under study); only the committee roster
is relevant here. -/
structure Share where
  committee : List OperatorID
  deriving DecidableEq, Repr

/-- Modelled from the spec: `f` for a committee of size `N = 3f+1`. -/
def Share.f (s : Share) : Nat := (s.committee.length - 1) / 3

/-- Modelled from the spec: `beacon.Share.HasQuorum` holds when the
count reaches `Quorum = 2f+1` (glossary: quorum is `2f+1` for a
committee of size `3f+1`). -/
def Share.HasQuorum (s : Share) (cnt : Nat) : Bool := 2 * s.f + 1 ≤ cnt

/-- `SignedMessage.DeepCopy` (ssv-spec): in a value model, the
identity. -/
def SignedMessage.DeepCopy (m : SignedMessage) : SignedMessage := m

/-- Modelled from the spec: `SignedMessage.Aggregate` (ssv-spec) folds
another signed message over the same message root into this one by
appending its signature and signer set (the spec's "deep-copy the
first, fold in additional signatures and signer unions"). -/
def SignedMessage.Aggregate (ret m : SignedMessage) : Except String SignedMessage :=
  if m.message = ret.message then
    Except.ok ⟨ret.signature ++ m.signature, ret.signers ++ m.signers, ret.message⟩
  else Except.error "can't aggregate different messages"

/-- `aggregateCommitMsgs` (`src/unnamed/part_002`): deep-copy the
first message and fold the remaining ones in. -/
def aggregateCommitMsgs (msgs : List SignedMessage) : Except String SignedMessage :=
  match msgs with
  | [] => Except.error "can't aggregate zero commit msgs"
  | m :: tl => tl.foldlM SignedMessage.Aggregate m.DeepCopy

/-- `commitQuorumForCurrentRoundValue` (`src/unnamed/part_002`):
quorum flag and matching messages for the given round and value. -/
def commitQuorumForCurrentRoundValue (msgRound : Round) (share : Share)
    (commitMsgContainer : MessageContainer) (value : MsgData) :
    Bool × List SignedMessage :=
  let r := longestUniqueSignersForRoundAndValue commitMsgContainer msgRound value
  (share.HasQuorum r.1.length, r.2)

/-- State of the v1 qbft instance relevant to the commit path. -/
structure CommitInstance where
  validatorShare : Share
  commitContainer : MessageContainer
  processCommitQuorumOnce : Bool
  decidedMsg : Option SignedMessage
  stage : RoundState
  deriving DecidableEq, Repr

/-- `uponCommitMsg` (`src/unnamed/part_002`): on quorum, fire the
one-shot guard, aggregate the matching commits, record the decided
message and move the stage to Decided. -/
def uponCommitMsg (i : CommitInstance) (signedMessage : SignedMessage) :
    CommitInstance × Except String Unit :=
  let q := commitQuorumForCurrentRoundValue signedMessage.message.round
      i.validatorShare i.commitContainer signedMessage.message.data
  if !q.1 then (i, Except.ok ())
  else if i.processCommitQuorumOnce then (i, Except.ok ())
  else
    match aggregateCommitMsgs q.2 with
    | Except.error e =>
        ({ i with processCommitQuorumOnce := true },
         Except.error ("could not aggregate commit msgs: " ++ e))
    | Except.ok agg =>
        ({ i with
            processCommitQuorumOnce := true
            decidedMsg := some agg
            stage := RoundState.decided }, Except.ok ())

/-- Folding messages that all share one message root succeeds and
concatenates signatures and signer lists. -/
theorem aggregate_foldlM (m0 : Message) :
    ∀ (tl : List SignedMessage) (acc : SignedMessage), acc.message = m0 →
      (∀ m ∈ tl, m.message = m0) →
      ∃ agg, tl.foldlM SignedMessage.Aggregate acc = Except.ok agg ∧
        agg.signature = acc.signature ++ tl.flatMap SignedMessage.signature ∧
        agg.signers = acc.signers ++ tl.flatMap SignedMessage.GetSigners ∧
        agg.message = m0 := by
  intro tl
  induction tl with
  | nil =>
    intro acc hacc _
    exact ⟨acc, rfl, by simp, by simp, hacc⟩
  | cons m tl ih =>
    intro acc hacc hall
    have hm : m.message = m0 := hall m (by simp)
    have hstep : SignedMessage.Aggregate acc m =
        Except.ok ⟨acc.signature ++ m.signature, acc.signers ++ m.signers, acc.message⟩ := by
      simp [SignedMessage.Aggregate, hm, hacc]
    obtain ⟨agg, hfold, hsig, hsgn, hmsg⟩ :=
      ih ⟨acc.signature ++ m.signature, acc.signers ++ m.signers, acc.message⟩
        hacc (fun x hx => hall x (by simp [hx]))
    refine ⟨agg, ?_, ?_, ?_, hmsg⟩
    · simpa [List.foldlM, hstep] using hfold
    · rw [hsig]; simp [List.append_assoc]
    · rw [hsgn]; simp [SignedMessage.GetSigners, List.append_assoc]

/-- Aggregating a nonempty list of commits sharing one message root:
deep-copy of the first with every signature and signer folded in. -/
theorem aggregateCommitMsgs_same (m0 : Message) (msgs : List SignedMessage)
    (hne : msgs ≠ []) (hall : ∀ m ∈ msgs, m.message = m0) :
    ∃ agg, aggregateCommitMsgs msgs = Except.ok agg ∧
      agg.signature = msgs.flatMap SignedMessage.signature ∧
      agg.signers = msgs.flatMap SignedMessage.GetSigners ∧
      agg.message = m0 := by
  match msgs, hne with
  | m :: tl, _ =>
    obtain ⟨agg, hfold, hsig, hsgn, hmsg⟩ :=
      aggregate_foldlM m0 tl m.DeepCopy (hall m (by simp))
        (fun x hx => hall x (by simp [hx]))
    exact ⟨agg, by simpa [aggregateCommitMsgs] using hfold,
      by simpa [SignedMessage.DeepCopy] using hsig,
      by simpa [SignedMessage.DeepCopy, SignedMessage.GetSigners] using hsgn, hmsg⟩

/-- Shared shape facts about `longestUniqueSignersForRoundAndValue`:
the chosen messages come from the round's pool, match the value, are
pairwise signer-disjoint, and the signers are their concatenated
signer lists. -/
theorem longestUnique_spec (container : MessageContainer) (round : Round)
    (value : MsgData) :
    (longestUniqueSignersForRoundAndValue container round value).2.Sublist
      (ReadOnlyMessagesByRound container round) ∧
    (longestUniqueSignersForRoundAndValue container round value).1 =
      (longestUniqueSignersForRoundAndValue container round value).2.flatMap
        SignedMessage.GetSigners ∧
    (∀ m ∈ (longestUniqueSignersForRoundAndValue container round value).2,
      m.message.data = value) ∧
    (longestUniqueSignersForRoundAndValue container round value).2.Pairwise
      (fun a b => ∀ s ∈ b.signers, s ∉ a.signers) := by
  unfold longestUniqueSignersForRoundAndValue
  exact longestScan_spec value (ReadOnlyMessagesByRound container round)
    (ReadOnlyMessagesByRound container round) [] [] (List.Sublist.refl _)
    (List.nil_sublist _) (by simp) (by simp) (by simp)

/-- C4: when the longest unique-signer set for the commit message's
round and value reaches the quorum and the one-shot guard has not yet
fired, `uponCommitMsg` aggregates the chosen commits (deep copy of the
first, remaining signatures and signer lists folded in), records the
aggregate as the decided message and moves the stage to Decided; and
once the guard has fired, any further call leaves the instance (and
so the decided message) unchanged. -/
theorem C4_uponCommitMsg_decides (i : CommitInstance) (msg : SignedMessage)
    (hq : (commitQuorumForCurrentRoundValue msg.message.round i.validatorShare
        i.commitContainer msg.message.data).1 = true)
    (heq : ∀ m ∈ ReadOnlyMessagesByRound i.commitContainer msg.message.round,
        m.message.data = msg.message.data → m.message = msg.message)
    (honce : i.processCommitQuorumOnce = false) :
    (∃ agg,
      aggregateCommitMsgs (commitQuorumForCurrentRoundValue msg.message.round
        i.validatorShare i.commitContainer msg.message.data).2 = Except.ok agg ∧
      uponCommitMsg i msg =
        (CommitInstance.mk i.validatorShare i.commitContainer true (some agg)
          RoundState.decided, Except.ok ()) ∧
      agg.signature = (commitQuorumForCurrentRoundValue msg.message.round
        i.validatorShare i.commitContainer msg.message.data).2.flatMap
          SignedMessage.signature ∧
      agg.signers = (commitQuorumForCurrentRoundValue msg.message.round
        i.validatorShare i.commitContainer msg.message.data).2.flatMap
          SignedMessage.GetSigners ∧
      agg.message = msg.message) ∧
    (∀ j : CommitInstance, j.processCommitQuorumOnce = true →
      (uponCommitMsg j msg).1 = j) := by
  obtain ⟨hsub, hflat, hdata, _⟩ :=
    longestUnique_spec i.commitContainer msg.message.round msg.message.data
  have hq2 := hq
  unfold commitQuorumForCurrentRoundValue at hq2
  simp only [Share.HasQuorum, decide_eq_true_eq] at hq2
  have hne : (commitQuorumForCurrentRoundValue msg.message.round i.validatorShare
      i.commitContainer msg.message.data).2 ≠ [] := by
    unfold commitQuorumForCurrentRoundValue
    intro hnil
    rw [hnil] at hflat
    · simp only [List.flatMap_nil] at hflat
      rw [hflat] at hq2
      simp at hq2
  have hallm : ∀ m ∈ (commitQuorumForCurrentRoundValue msg.message.round
      i.validatorShare i.commitContainer msg.message.data).2,
      m.message = msg.message := by
    intro m hm
    exact heq m (hsub.mem hm) (hdata m hm)
  obtain ⟨agg, hagg, hsig, hsgn, hmsg⟩ :=
    aggregateCommitMsgs_same msg.message _ hne hallm
  refine ⟨⟨agg, hagg, ?_, hsig, hsgn, hmsg⟩, ?_⟩
  · show uponCommitMsg i msg = _
    unfold uponCommitMsg
    simp [hq, honce, hagg]
  · intro j hj
    unfold uponCommitMsg
    by_cases hjq : (commitQuorumForCurrentRoundValue msg.message.round
        j.validatorShare j.commitContainer msg.message.data).1
    · simp [hjq, hj]
    · simp [hjq]

/-- Committee 1,2,3,4 used by the C4 witness. -/
def c4share : Share := ⟨[1, 2, 3, 4]⟩

/-- Commit message body shared by the C4 witness messages. -/
def c4message : Message := ⟨MsgType.commitMsgType, 0, 1, [], MsgData.commitData [7]⟩

/-- C4 witness commit from operator 1. -/
def c4m1 : SignedMessage := ⟨[[11]], [1], c4message⟩

/-- C4 witness commit from operator 2. -/
def c4m2 : SignedMessage := ⟨[[12]], [2], c4message⟩

/-- C4 witness commit from operator 3. -/
def c4m3 : SignedMessage := ⟨[[13]], [3], c4message⟩

/-- C4 witness commit container with a quorum at round 1. -/
def c4container : MessageContainer := [(1, [c4m1, c4m2, c4m3])]

/-- C4 witness instance before deciding. -/
def c4instance : CommitInstance := ⟨c4share, c4container, false, none, RoundState.commit⟩

/-- C4 (witness): the theorem evaluated on a committee of four with
three single-signer commits over one value. -/
theorem C4_witness :
    (∃ agg,
      aggregateCommitMsgs (commitQuorumForCurrentRoundValue c4m1.message.round
        c4instance.validatorShare c4instance.commitContainer c4m1.message.data).2 =
          Except.ok agg ∧
      uponCommitMsg c4instance c4m1 =
        (CommitInstance.mk c4instance.validatorShare c4instance.commitContainer true
          (some agg) RoundState.decided, Except.ok ()) ∧
      agg.signature = (commitQuorumForCurrentRoundValue c4m1.message.round
        c4instance.validatorShare c4instance.commitContainer c4m1.message.data).2.flatMap
          SignedMessage.signature ∧
      agg.signers = (commitQuorumForCurrentRoundValue c4m1.message.round
        c4instance.validatorShare c4instance.commitContainer c4m1.message.data).2.flatMap
          SignedMessage.GetSigners ∧
      agg.message = c4m1.message) ∧
    (∀ j : CommitInstance, j.processCommitQuorumOnce = true →
      (uponCommitMsg j c4m1).1 = j) :=
  C4_uponCommitMsg_decides c4instance c4m1 (by decide) (by decide) rfl

/-! ## C5: `UponProposalMsg`

From `src/unnamed/part_003` lines 54-88.  `bumpToRound`,
`ResetRoundTimer`, `ProcessStageChange` and `GeneratePrepareMessage`
are declared outside the sources under study and are modelled from the
spec: bump the round, reset the timer, set the stage, and build a
PREPARE message for the accepted value at the current height, round
and identifier.  `SignAndBroadcast` is modelled as emitting the
message (network errors are out of scope). -/

/-- Decoded `ProposalData` (ssv-spec): proposed value plus
justifications. -/
structure ProposalData where
  data : Value
  roundChangeJustification : List JSignedMessage
  prepareJustification : List JSignedMessage
  deriving DecidableEq, Repr

/-- `Message.GetProposalData`: decodes the payload as proposal data,
failing on any other payload shape. -/
def Message.GetProposalData (m : Message) : Except String ProposalData :=
  match m.data with
  | MsgData.proposalData d rcj pj => Except.ok ⟨d, rcj, pj⟩
  | _ => Except.error "could not decode proposal data"

/-- State of the v1 qbft instance relevant to the proposal path. -/
structure ProposalInstance where
  height : Height
  round : Round
  identifier : Value
  stage : RoundState
  proposalAccepted : Option SignedMessage
  deriving DecidableEq, Repr

/-- Modelled from the spec: `GeneratePrepareMessage` builds a PREPARE
for the given value at the instance's current height, round and
identifier. -/
def GeneratePrepareMessage (i : ProposalInstance) (value : Value) : Message :=
  ⟨MsgType.prepareMsgType, i.height, i.round, i.identifier, MsgData.prepareData value⟩

/-- Outcome of `UponProposalMsg`: the updated instance state, whether
the round timer was reset, the broadcast PREPARE (if any) and the
returned error. -/
structure ProposalOutcome where
  state : ProposalInstance
  timerReset : Bool
  broadcast : Option Message
  result : Except String Unit
  deriving Repr

/-- `UponProposalMsg` (`src/unnamed/part_003`): store the accepted
proposal, bump the round and reset the timer when the message's round
is ahead, move the stage to Proposal and broadcast a PREPARE carrying
the proposal's data. -/
def UponProposalMsg (i : ProposalInstance) (signedMessage : SignedMessage) :
    ProposalOutcome :=
  let i1 := { i with proposalAccepted := some signedMessage }
  let newRound := signedMessage.message.round
  let bumped := decide (i1.round < signedMessage.message.round)
  let i2 := if bumped then { i1 with round := newRound } else i1
  match signedMessage.message.GetProposalData with
  | Except.error e =>
      ⟨i2, bumped, none, Except.error ("failed to get prepare message: " ++ e)⟩
  | Except.ok proposalData =>
      let i3 := { i2 with stage := RoundState.proposal }
      ⟨i3, bumped, some (GeneratePrepareMessage i3 proposalData.data), Except.ok ()⟩

/-- C5: a proposal message carrying proposal data is recorded as the
accepted proposal; the round is bumped (and the timer reset) exactly
when the message's round is strictly ahead of the instance round; the
stage moves to Proposal and a PREPARE carrying the proposal's data is
broadcast. -/
theorem C5_uponProposalMsg (i : ProposalInstance) (msg : SignedMessage)
    (d : Value) (rcj pj : List JSignedMessage)
    (hdata : msg.message.data = MsgData.proposalData d rcj pj) :
    (UponProposalMsg i msg).state.proposalAccepted = some msg ∧
    (i.round < msg.message.round →
      (UponProposalMsg i msg).state.round = msg.message.round ∧
      (UponProposalMsg i msg).timerReset = true) ∧
    (¬ i.round < msg.message.round →
      (UponProposalMsg i msg).state.round = i.round ∧
      (UponProposalMsg i msg).timerReset = false) ∧
    (UponProposalMsg i msg).state.stage = RoundState.proposal ∧
    (UponProposalMsg i msg).state.height = i.height ∧
    (UponProposalMsg i msg).broadcast = some
      ⟨MsgType.prepareMsgType, i.height, (UponProposalMsg i msg).state.round,
        i.identifier, MsgData.prepareData d⟩ ∧
    (UponProposalMsg i msg).result = Except.ok () := by
  have hpd : msg.message.GetProposalData = Except.ok ⟨d, rcj, pj⟩ := by
    unfold Message.GetProposalData
    rw [hdata]
  by_cases hlt : i.round < msg.message.round
  · simp [UponProposalMsg, hpd, hlt, GeneratePrepareMessage]
  · simp [UponProposalMsg, hpd, hlt, GeneratePrepareMessage]

/-- C5 (witness): the theorem evaluated on a round-1 instance
receiving a justified round-2 proposal. -/
theorem C5_witness :
    (let i : ProposalInstance := ⟨0, 1, [5], RoundState.notStarted, none⟩
     let msg : SignedMessage :=
       ⟨[[21]], [2], ⟨MsgType.proposalMsgType, 0, 2, [5],
         MsgData.proposalData [7] [] []⟩⟩
     (UponProposalMsg i msg).state.proposalAccepted = some msg ∧
     (i.round < msg.message.round →
       (UponProposalMsg i msg).state.round = msg.message.round ∧
       (UponProposalMsg i msg).timerReset = true) ∧
     (¬ i.round < msg.message.round →
       (UponProposalMsg i msg).state.round = i.round ∧
       (UponProposalMsg i msg).timerReset = false) ∧
     (UponProposalMsg i msg).state.stage = RoundState.proposal ∧
     (UponProposalMsg i msg).state.height = i.height ∧
     (UponProposalMsg i msg).broadcast = some
       ⟨MsgType.prepareMsgType, i.height, (UponProposalMsg i msg).state.round,
         i.identifier, MsgData.prepareData [7]⟩ ∧
     (UponProposalMsg i msg).result = Except.ok ()) :=
  C5_uponProposalMsg ⟨0, 1, [5], RoundState.notStarted, none⟩
    ⟨[[21]], [2], ⟨MsgType.proposalMsgType, 0, 2, [5],
      MsgData.proposalData [7] [] []⟩⟩ [7] [] [] rfl

/-! ## C2: proposal justification (`Justify`)

From `src/protocol/v1/validator/validator.go` lines 259-342 (package
`proposal`), together with its helpers `highestPrepared` (lines
344-370) and `validateRoundChangeJustification` (lines 372-431).

The validation pipeline pieces `signedmsg.BasicMsgValidation`,
`signedmsg.MsgTypeCheck`, `signedmsg.ValidateSequenceNumber`,
`signedmsg.ValidateRound`, `signedmsg.AuthorizeMsg`,
`signedmsg.HasQuorum` and `changeround.ValidateWithRound` are declared
outside the sources under study; they are modelled from the spec
(section 4.2).  BLS verification outcomes are the boolean oracle
`sigOK`; the change-round justification check is the boolean oracle
`crValid`.  `Justify` reads only `GetHeight()` from the instance
state, so the embedding takes the height directly. -/

/-- Boolean success test for an error-returning operation. -/
def isOkRes (e : Except String Unit) : Bool :=
  match e with
  | Except.ok _ => true
  | Except.error _ => false

/-- Modelled from the spec: **Basic** pipeline check — non-nil
message, signature length correct, signers non-empty
(`signedmsg.BasicMsgValidation`).  Nil messages are unrepresentable in
a value model, and a correct signature length is a nonempty signature
list. -/
def BasicMsgValidation (m : JSignedMessage) : Except String Unit :=
  if m.signature.isEmpty then Except.error "message signature is invalid"
  else if m.signers.isEmpty then Except.error "message signers is empty"
  else Except.ok ()

/-- Modelled from the spec: **TypeCheck** pipeline check
(`signedmsg.MsgTypeCheck`). -/
def MsgTypeCheck (expected : MsgType) (m : JSignedMessage) : Except String Unit :=
  if m.message.msgType = expected then Except.ok ()
  else Except.error "message type is wrong"

/-- Modelled from the spec: **SequenceCheck** pipeline check
(`signedmsg.ValidateSequenceNumber`). -/
def ValidateSequenceNumber (height : Height) (m : JSignedMessage) : Except String Unit :=
  if m.message.height = height then Except.ok ()
  else Except.error "invalid message sequence number"

/-- Modelled from the spec: **RoundCheck** pipeline check
(`signedmsg.ValidateRound`). -/
def ValidateRound (round : Round) (m : JSignedMessage) : Except String Unit :=
  if m.message.round = round then Except.ok ()
  else Except.error "message round is wrong"

/-- Modelled from the spec: **Authorize** pipeline check
(`signedmsg.AuthorizeMsg`): every signer is in the committee and the
signature verifies (verification outcome supplied by the `sigOK`
oracle). -/
def AuthorizeMsg (share : Share) (sigOK : JSignedMessage → Bool)
    (m : JSignedMessage) : Except String Unit :=
  if m.signers.all (fun s => decide (s ∈ share.committee)) then
    (if sigOK m then Except.ok () else Except.error "invalid message signature")
  else Except.error "unknown signer"

/-- Modelled from the spec: `signedmsg.HasQuorum` counts unique
signers across the messages and compares with the quorum `2f+1`. -/
def uniqueSignerCount (msgs : List JSignedMessage) : Nat :=
  ((msgs.flatMap JSignedMessage.GetSigners).dedup).length

/-- Modelled from the spec: quorum test over a message list
(`signedmsg.HasQuorum`, first return value). -/
def HasQuorumMsgs (share : Share) (msgs : List JSignedMessage) : Bool :=
  share.HasQuorum (uniqueSignerCount msgs)

/-- Decoded `RoundChangeData` (ssv-spec): optional prepared round and
value. -/
structure RoundChangeData where
  preparedRound : Round
  preparedValue : Value
  deriving DecidableEq, Repr

/-- `Message.GetRoundChangeData` on a justification message: decodes
the payload as round-change data, failing on any other shape. -/
def JMessage.GetRoundChangeData (m : JMessage) : Except String RoundChangeData :=
  match m.data with
  | JData.roundChangeData pr pv => Except.ok ⟨pr, pv⟩
  | _ => Except.error "could not decode round change data"

/-- Modelled from the spec: `RoundChangeData.Prepared` (ssv-spec) —
the message carries a prepared state iff the prepared round is set
(nonzero) and the prepared value is non-nil. -/
def RoundChangeData.Prepared (d : RoundChangeData) : Bool :=
  decide (d.preparedRound ≠ 0) && decide (d.preparedValue ≠ [])

/-- `Message.GetPrepareData` on a justification message. -/
def JMessage.GetPrepareData (m : JMessage) : Except String Value :=
  match m.data with
  | JData.prepareData d => Except.ok d
  | _ => Except.error "could not decode prepare data"

/-- Modelled from the spec: `PrepareData.Validate` (ssv-spec) — the
prepared data must be nonempty. -/
def PrepareDataValidate (d : Value) : Except String Unit :=
  if d.isEmpty then Except.error "PrepareData data is invalid" else Except.ok ()

/-- The round-change validation pipeline run by `Justify` on each
accompanying ROUND-CHANGE message (validator.go lines 267-274):
Basic, TypeCheck, SequenceCheck, RoundCheck, Authorize, and the
change-round justification check. -/
def validateRoundChangesPipeline (share : Share) (height : Height) (round : Round)
    (sigOK : JSignedMessage → Bool) (crValid : JSignedMessage → Round → Bool)
    (rc : JSignedMessage) : Except String Unit := do
  BasicMsgValidation rc
  MsgTypeCheck MsgType.roundChangeMsgType rc
  ValidateSequenceNumber height rc
  ValidateRound round rc
  AuthorizeMsg share sigOK rc
  if crValid rc round then pure () else Except.error "change round justification invalid"

/-- Run a check over every element, stopping at the first failure
(pipeline composition over a message list). -/
def runAll (f : JSignedMessage → Except String Unit) :
    List JSignedMessage → Except String Unit
  | [] => Except.ok ()
  | x :: tl =>
    match f x with
    | Except.error e => Except.error e
    | Except.ok _ => runAll f tl

/-- The `previouslyPreparedF` closure inside `Justify` (validator.go
lines 284-295): true as soon as one round-change message carries a
prepared state, with decode errors surfaced. -/
def previouslyPreparedF : List JSignedMessage → Except String Bool
  | [] => Except.ok false
  | rc :: tl =>
    match rc.message.GetRoundChangeData with
    | Except.error e => Except.error ("could not get round change data: " ++ e)
    | Except.ok rcData =>
      if rcData.Prepared then Except.ok true else previouslyPreparedF tl

/-- Loop body of `highestPrepared` (validator.go lines 344-370),
with the running best carried explicitly. -/
def highestPreparedGo (ret : Option JSignedMessage) :
    List JSignedMessage → Except String (Option JSignedMessage)
  | [] => Except.ok ret
  | rc :: tl =>
    match rc.message.GetRoundChangeData with
    | Except.error e => Except.error ("could not get round change data: " ++ e)
    | Except.ok rcData =>
      if !rcData.Prepared then highestPreparedGo ret tl
      else
        match ret with
        | none => highestPreparedGo (some rc) tl
        | some r =>
          match r.message.GetRoundChangeData with
          | Except.error e => Except.error ("could not get round change data: " ++ e)
          | Except.ok retRCData =>
            if retRCData.preparedRound < rcData.preparedRound then
              highestPreparedGo (some rc) tl
            else highestPreparedGo ret tl

/-- `highestPrepared` (validator.go): the round-change message with
the highest prepared round, `none` when none is prepared. -/
def highestPrepared (roundChanges : List JSignedMessage) :
    Except String (Option JSignedMessage) :=
  highestPreparedGo none roundChanges

/-- `validateRoundChangeJustification` (validator.go lines 372-431):
each justifying PREPARE must have the right type, height, round and
data, be a single-signer message or itself carry a quorum, and verify
(oracle `sigOK`). -/
def validateRoundChangeJustification (signedPrepare : JSignedMessage)
    (height : Height) (round : Round) (value : Value) (share : Share)
    (sigOK : JSignedMessage → Bool) : Except String Unit :=
  if signedPrepare.message.msgType ≠ MsgType.prepareMsgType then
    Except.error "prepare msg type is wrong"
  else if signedPrepare.message.height ≠ height then
    Except.error "message height is wrong"
  else if signedPrepare.message.round ≠ round then
    Except.error "round is wrong"
  else
    match signedPrepare.message.GetPrepareData with
    | Except.error e => Except.error ("could not get prepare data: " ++ e)
    | Except.ok prepareData =>
      match PrepareDataValidate prepareData with
      | Except.error e => Except.error ("prepareData invalid: " ++ e)
      | Except.ok _ =>
        if prepareData ≠ value then
          Except.error "prepare data != proposed data"
        else
          let qourum := share.HasQuorum signedPrepare.GetSigners.length
          let singleSigner := decide (signedPrepare.GetSigners.length = 1)
          if !qourum && !singleSigner then
            Except.error "prepare msg allows 1 signer"
          else if sigOK signedPrepare then Except.ok ()
          else Except.error "invalid message signature"

/-- `Justify` (validator.go lines 259-342): round 1 is justified
unconditionally; otherwise require a validated round-change quorum,
and when any round-change is prepared, a prepare quorum, a match with
the highest prepared value, and validation of every justifying
PREPARE against the highest prepared round and value. -/
def Justify (share : Share) (height : Height) (round : Round)
    (roundChanges prepares : List JSignedMessage) (proposedValue : Value)
    (sigOK : JSignedMessage → Bool) (crValid : JSignedMessage → Round → Bool) :
    Except String Unit :=
  if round = 1 then Except.ok ()
  else
    match runAll (validateRoundChangesPipeline share height round sigOK crValid)
        roundChanges with
    | Except.error e => Except.error ("change round msg not valid: " ++ e)
    | Except.ok _ =>
      if !HasQuorumMsgs share roundChanges then
        Except.error "change round has not quorum"
      else
        match previouslyPreparedF roundChanges with
        | Except.error e =>
            Except.error ("could not calculate if previously prepared: " ++ e)
        | Except.ok false => Except.ok ()
        | Except.ok true =>
          if !HasQuorumMsgs share prepares then
            Except.error "prepares has no quorum"
          else
            match highestPrepared roundChanges with
            | Except.error e => Except.error ("could not get highest prepared: " ++ e)
            | Except.ok none => Except.error "no highest prepared"
            | Except.ok (some highest) =>
              match highest.message.GetRoundChangeData with
              | Except.error e => Except.error ("could not get round change data: " ++ e)
              | Except.ok highestData =>
                if proposedValue ≠ highestData.preparedValue then
                  Except.error "proposed data doesn't match highest prepared"
                else
                  match runAll (fun rcj => validateRoundChangeJustification rcj
                      height highestData.preparedRound highestData.preparedValue
                      share sigOK) prepares with
                  | Except.error _ => Except.error "signed prepare not valid"
                  | Except.ok _ => Except.ok ()

/-- Whether a justification message decodes as round-change data. -/
def rcDecodes (rc : JSignedMessage) : Bool :=
  match rc.message.GetRoundChangeData with
  | Except.ok _ => true
  | Except.error _ => false

/-- Whether a round-change message carries a prepared state (false
when it does not decode). -/
def RCPrepared (rc : JSignedMessage) : Bool :=
  match rc.message.GetRoundChangeData with
  | Except.ok d => d.Prepared
  | Except.error _ => false

/-- The prepared round carried by a round-change message (0 when it
does not decode). -/
def rcPreparedRound (rc : JSignedMessage) : Nat :=
  match rc.message.GetRoundChangeData with
  | Except.ok d => d.preparedRound
  | Except.error _ => 0

/-- The prepared value carried by a round-change message (empty when
it does not decode). -/
def rcPreparedValue (rc : JSignedMessage) : Value :=
  match rc.message.GetRoundChangeData with
  | Except.ok d => d.preparedValue
  | Except.error _ => []

/-- The maximum prepared round among the prepared round-change
messages of a list (0 when none). -/
def maxPreparedRound (l : List JSignedMessage) : Nat :=
  l.foldr (fun rc acc => if RCPrepared rc then max (rcPreparedRound rc) acc else acc) 0

/-- The first prepared round-change message whose prepared round
equals `M`. -/
def findMaxWith (M : Round) (l : List JSignedMessage) : Option JSignedMessage :=
  l.find? (fun rc => RCPrepared rc && (rcPreparedRound rc == M))

/-- The first round-change message attaining the maximum prepared
round — the message `highestPrepared` selects. -/
def findFirstMaxPrepared (l : List JSignedMessage) : Option JSignedMessage :=
  findMaxWith (maxPreparedRound l) l

/-- A decodable round-change message decodes to its prepared round
and value. -/
theorem rcDecodes_get (rc : JSignedMessage) (h : rcDecodes rc = true) :
    rc.message.GetRoundChangeData =
      Except.ok ⟨rcPreparedRound rc, rcPreparedValue rc⟩ := by
  unfold rcDecodes at h
  unfold rcPreparedRound rcPreparedValue
  cases hd : rc.message.GetRoundChangeData with
  | ok d => simp [hd]
  | error e => rw [hd] at h; simp at h

/-- A prepared round-change message has a nonzero prepared round. -/
theorem rcPrepared_round_pos (rc : JSignedMessage) (h : RCPrepared rc = true) :
    0 < rcPreparedRound rc := by
  unfold RCPrepared at h
  unfold rcPreparedRound
  cases hd : rc.message.GetRoundChangeData with
  | ok d =>
    rw [hd] at h
    unfold RoundChangeData.Prepared at h
    simp only [Bool.and_eq_true, decide_eq_true_eq] at h
    obtain ⟨h1, _⟩ := h
    show 0 < d.preparedRound
    exact Nat.pos_of_ne_zero h1
  | error e => rw [hd] at h; simp at h

/-- `runAll` succeeds exactly when every element passes the check. -/
theorem runAll_ok_iff (f : JSignedMessage → Except String Unit) :
    ∀ l : List JSignedMessage,
      runAll f l = Except.ok () ↔ ∀ x ∈ l, isOkRes (f x) = true := by
  intro l
  induction l with
  | nil => simp [runAll]
  | cons x tl ih =>
    constructor
    · intro h
      unfold runAll at h
      cases hf : f x with
      | error e => rw [hf] at h; simp at h
      | ok u =>
        rw [hf] at h
        intro y hy
        rcases List.mem_cons.mp hy with rfl | hy
        · simp [isOkRes, hf]
        · exact (ih.mp h) y hy
    · intro h
      unfold runAll
      cases hf : f x with
      | error e =>
        have := h x (by simp)
        rw [hf] at this
        simp [isOkRes] at this
      | ok u => exact ih.mpr (fun y hy => h y (by simp [hy]))

/-- `previouslyPreparedF` on decodable round-changes computes whether
any of them is prepared. -/
theorem previouslyPreparedF_eq :
    ∀ l : List JSignedMessage, (∀ rc ∈ l, rcDecodes rc = true) →
      previouslyPreparedF l = Except.ok (l.any RCPrepared) := by
  intro l
  induction l with
  | nil => intro _; simp [previouslyPreparedF]
  | cons rc tl ih =>
    intro hdec
    have hrc := rcDecodes_get rc (hdec rc (by simp))
    have hprep : RCPrepared rc =
        (RoundChangeData.mk (rcPreparedRound rc) (rcPreparedValue rc)).Prepared := by
      unfold RCPrepared
      rw [hrc]
    unfold previouslyPreparedF
    rw [hrc]
    by_cases hp : (RoundChangeData.mk (rcPreparedRound rc) (rcPreparedValue rc)).Prepared
    · simp [hp, List.any_cons, hprep]
    · simp only [hp, if_neg, Bool.false_eq_true, if_false]
      rw [ih (fun x hx => hdec x (by simp [hx]))]
      simp [List.any_cons, hprep, hp]

/-- Pure version of the `highestPrepared` loop. -/
def pureHighest : Option JSignedMessage → List JSignedMessage → Option JSignedMessage
  | ret, [] => ret
  | ret, rc :: tl =>
    if !RCPrepared rc then pureHighest ret tl
    else
      match ret with
      | none => pureHighest (some rc) tl
      | some r =>
        if rcPreparedRound r < rcPreparedRound rc then pureHighest (some rc) tl
        else pureHighest ret tl

/-- On decodable round-changes the `highestPrepared` loop computes its
pure version. -/
theorem highestPreparedGo_eq :
    ∀ (l : List JSignedMessage) (ret : Option JSignedMessage),
      (∀ rc ∈ l, rcDecodes rc = true) →
      (∀ r, ret = some r → rcDecodes r = true) →
      highestPreparedGo ret l = Except.ok (pureHighest ret l) := by
  intro l
  induction l with
  | nil => intro ret _ _; simp [highestPreparedGo, pureHighest]
  | cons rc tl ih =>
    intro ret hdec hret
    have hrc := rcDecodes_get rc (hdec rc (by simp))
    have hdtl : ∀ x ∈ tl, rcDecodes x = true := fun x hx => hdec x (by simp [hx])
    have hprep : (RoundChangeData.mk (rcPreparedRound rc) (rcPreparedValue rc)).Prepared =
        RCPrepared rc := by
      unfold RCPrepared
      rw [hrc]
    unfold highestPreparedGo pureHighest
    rw [hrc]
    dsimp only
    rw [hprep]
    by_cases hp : RCPrepared rc
    · simp only [hp, Bool.not_true, Bool.false_eq_true, if_false]
      cases ret with
      | none =>
        exact ih (some rc) hdtl (by intro x hx; cases hx; exact hdec rc (by simp))
      | some r =>
        have hr := rcDecodes_get r (hret r rfl)
        dsimp only
        rw [hr]
        dsimp only
        by_cases hlt : rcPreparedRound r < rcPreparedRound rc
        · rw [if_pos hlt, if_pos hlt]
          exact ih (some rc) hdtl (by intro x hx; cases hx; exact hdec rc (by simp))
        · rw [if_neg hlt, if_neg hlt]
          exact ih (some r) hdtl hret
    · have hp2 : RCPrepared rc = false := by
        revert hp; cases RCPrepared rc <;> simp
      rw [hp2]
      simp only [Bool.not_false, if_true]
      exact ih ret hdtl hret

/-- Unfolding of `maxPreparedRound` over a cons. -/
theorem maxPreparedRound_cons (rc : JSignedMessage) (tl : List JSignedMessage) :
    maxPreparedRound (rc :: tl) =
      if RCPrepared rc then max (rcPreparedRound rc) (maxPreparedRound tl)
      else maxPreparedRound tl := rfl

/-- The pure `highestPrepared` loop with a running candidate returns
the first message beating the candidate's prepared round when one
exists, and the candidate otherwise. -/
theorem pureHighest_some :
    ∀ (l : List JSignedMessage) (r : JSignedMessage),
      pureHighest (some r) l =
        if rcPreparedRound r < maxPreparedRound l then
          findMaxWith (maxPreparedRound l) l
        else some r := by
  intro l
  induction l with
  | nil =>
    intro r
    simp [pureHighest, maxPreparedRound]
  | cons rc tl ih =>
    intro r
    by_cases hp : RCPrepared rc
    · have hstep : pureHighest (some r) (rc :: tl) =
          if rcPreparedRound r < rcPreparedRound rc then pureHighest (some rc) tl
          else pureHighest (some r) tl := by
        simp [pureHighest, hp]
      rw [hstep, maxPreparedRound_cons, if_pos hp]
      by_cases hlt : rcPreparedRound r < rcPreparedRound rc
      · rw [if_pos hlt, ih rc,
          if_pos (show rcPreparedRound r <
            max (rcPreparedRound rc) (maxPreparedRound tl) by omega)]
        by_cases h2 : rcPreparedRound rc < maxPreparedRound tl
        · rw [if_pos h2]
          have hmax : max (rcPreparedRound rc) (maxPreparedRound tl) =
              maxPreparedRound tl := by omega
          rw [hmax]
          unfold findMaxWith
          rw [List.find?_cons_of_neg]
          simp only [Bool.and_eq_true, beq_iff_eq, not_and, hp]
          intro _
          omega
        · rw [if_neg h2]
          have hmax : max (rcPreparedRound rc) (maxPreparedRound tl) =
              rcPreparedRound rc := by omega
          rw [hmax]
          unfold findMaxWith
          rw [List.find?_cons_of_pos]
          simp [hp]
      · rw [if_neg hlt, ih r]
        have hcond : (rcPreparedRound r <
            max (rcPreparedRound rc) (maxPreparedRound tl)) ↔
            (rcPreparedRound r < maxPreparedRound tl) := by omega
        by_cases h2 : rcPreparedRound r < maxPreparedRound tl
        · rw [if_pos h2, if_pos (hcond.mpr h2)]
          have hmax : max (rcPreparedRound rc) (maxPreparedRound tl) =
              maxPreparedRound tl := by omega
          rw [hmax]
          unfold findMaxWith
          rw [List.find?_cons_of_neg]
          simp only [Bool.and_eq_true, beq_iff_eq, not_and, hp]
          intro _
          omega
        · rw [if_neg h2, if_neg (fun hc => h2 (hcond.mp hc))]
    · have hstep : pureHighest (some r) (rc :: tl) = pureHighest (some r) tl := by
        simp [pureHighest, hp]
      rw [hstep, maxPreparedRound_cons, if_neg hp, ih r]
      by_cases h2 : rcPreparedRound r < maxPreparedRound tl
      · rw [if_pos h2, if_pos h2]
        unfold findMaxWith
        rw [List.find?_cons_of_neg]
        simp [hp]
      · rw [if_neg h2, if_neg h2]

/-- The pure `highestPrepared` loop selects the first round-change
attaining the maximum prepared round. -/
theorem pureHighest_none :
    ∀ l : List JSignedMessage, pureHighest none l = findFirstMaxPrepared l := by
  intro l
  induction l with
  | nil => simp [pureHighest, findFirstMaxPrepared, findMaxWith]
  | cons rc tl ih =>
    by_cases hp : RCPrepared rc
    · have hstep : pureHighest none (rc :: tl) = pureHighest (some rc) tl := by
        simp [pureHighest, hp]
      rw [hstep, pureHighest_some tl rc]
      unfold findFirstMaxPrepared
      rw [maxPreparedRound_cons, if_pos hp]
      by_cases h2 : rcPreparedRound rc < maxPreparedRound tl
      · rw [if_pos h2]
        have hmax : max (rcPreparedRound rc) (maxPreparedRound tl) =
            maxPreparedRound tl := by omega
        rw [hmax]
        unfold findMaxWith
        rw [List.find?_cons_of_neg]
        simp only [Bool.and_eq_true, beq_iff_eq, not_and, hp]
        intro _
        omega
      · rw [if_neg h2]
        have hmax : max (rcPreparedRound rc) (maxPreparedRound tl) =
            rcPreparedRound rc := by omega
        rw [hmax]
        unfold findMaxWith
        rw [List.find?_cons_of_pos]
        simp [hp]
    · have hstep : pureHighest none (rc :: tl) = pureHighest none tl := by
        simp [pureHighest, hp]
      rw [hstep, ih]
      unfold findFirstMaxPrepared
      rw [maxPreparedRound_cons, if_neg hp]
      unfold findMaxWith
      rw [List.find?_cons_of_neg]
      simp [hp]

/-- The maximum prepared round of a list without prepared
round-changes is zero. -/
theorem maxPreparedRound_eq_zero :
    ∀ l : List JSignedMessage, l.any RCPrepared = false →
      maxPreparedRound l = 0 := by
  intro l
  induction l with
  | nil => intro _; rfl
  | cons y ys ihy =>
    intro h
    rw [List.any_cons] at h
    have h1 : RCPrepared y = false := by
      cases hyp : RCPrepared y
      · rfl
      · rw [hyp] at h; simp at h
    have h2 : ys.any RCPrepared = false := by
      rw [h1] at h; simpa using h
    rw [maxPreparedRound_cons, if_neg (by simp [h1])]
    exact ihy h2

/-- The maximum prepared round is attained whenever some round-change
is prepared. -/
theorem maxPreparedRound_attained :
    ∀ l : List JSignedMessage, l.any RCPrepared = true →
      ∃ x ∈ l, RCPrepared x = true ∧ rcPreparedRound x = maxPreparedRound l := by
  intro l
  induction l with
  | nil => intro h; simp at h
  | cons rc tl ih =>
    intro hany
    rw [maxPreparedRound_cons]
    by_cases hp : RCPrepared rc
    · rw [if_pos hp]
      by_cases htl : tl.any RCPrepared = true
      · obtain ⟨x, hx, hpx, hmx⟩ := ih htl
        by_cases hc : rcPreparedRound x ≤ rcPreparedRound rc
        · exact ⟨rc, by simp, hp, by omega⟩
        · exact ⟨x, by simp [hx], hpx, by omega⟩
      · have hz : maxPreparedRound tl = 0 := by
          apply maxPreparedRound_eq_zero
          cases h2 : tl.any RCPrepared
          · rfl
          · exact absurd h2 htl
        exact ⟨rc, by simp, hp, by omega⟩
    · rw [if_neg hp]
      have htl : tl.any RCPrepared = true := by
        rw [List.any_cons] at hany
        rcases Bool.or_eq_true_iff.mp hany with h | h
        · exact absurd h hp
        · exact h
      obtain ⟨x, hx, hpx, hmx⟩ := ih htl
      exact ⟨x, by simp [hx], hpx, hmx⟩

/-- C2 (amended): for decodable round-change justifications, `Justify`
succeeds iff the round is 1, or: every accompanying ROUND-CHANGE
passes the validation pipeline for `(height, round)`, their unique
signers form a quorum, and either none of them is prepared (the value
is unconstrained) or the accompanying PREPARE messages form a quorum,
the proposed value equals the prepared value of the *first*
accompanying ROUND-CHANGE attaining the maximal prepared round (ties
keep the first, not any maximal one), and *every* accompanying PREPARE
validates against that prepared round and value. -/
theorem C2_amended_justify (share : Share) (height : Height) (round : Round)
    (roundChanges prepares : List JSignedMessage) (proposedValue : Value)
    (sigOK : JSignedMessage → Bool) (crValid : JSignedMessage → Round → Bool)
    (hdec : ∀ rc ∈ roundChanges, rcDecodes rc = true) :
    Justify share height round roundChanges prepares proposedValue sigOK crValid =
        Except.ok () ↔
      (round = 1 ∨
       ((∀ rc ∈ roundChanges, isOkRes (validateRoundChangesPipeline share height
            round sigOK crValid rc) = true) ∧
        HasQuorumMsgs share roundChanges = true ∧
        ((∀ rc ∈ roundChanges, RCPrepared rc = false) ∨
         (HasQuorumMsgs share prepares = true ∧
          ∃ h, findFirstMaxPrepared roundChanges = some h ∧
            proposedValue = rcPreparedValue h ∧
            ∀ p ∈ prepares, isOkRes (validateRoundChangeJustification p height
              (rcPreparedRound h) (rcPreparedValue h) share sigOK) = true)))) := by
  by_cases hr1 : round = 1
  · simp [Justify, hr1]
  · unfold Justify
    rw [if_neg hr1]
    cases hrun : runAll (validateRoundChangesPipeline share height round sigOK
        crValid) roundChanges with
    | error e =>
      constructor
      · intro h
        exact Except.noConfusion h
      · intro h
        exfalso
        rcases h with h1 | ⟨hall, _⟩
        · exact hr1 h1
        · rw [(runAll_ok_iff _ roundChanges).mpr hall] at hrun
          exact Except.noConfusion hrun
    | ok u =>
      cases u
      have hall := (runAll_ok_iff _ roundChanges).mp hrun
      cases hq : HasQuorumMsgs share roundChanges with
      | false =>
        simp only [Bool.not_false, if_true]
        constructor
        · intro h
          exact Except.noConfusion h
        · intro h
          exfalso
          rcases h with h1 | ⟨_, hq2, _⟩
          · exact hr1 h1
          · exact Bool.noConfusion hq2
      | true =>
        simp only [Bool.not_true, Bool.false_eq_true, if_false]
        rw [previouslyPreparedF_eq roundChanges hdec]
        cases hany : roundChanges.any RCPrepared with
        | false =>
          dsimp only
          constructor
          · intro _
            right
            refine ⟨hall, trivial, Or.inl ?_⟩
            intro rc hrc
            have := List.any_eq_false.mp hany rc hrc
            cases h2 : RCPrepared rc
            · rfl
            · exact absurd h2 this
          · intro _
            rfl
        | true =>
          dsimp only
          obtain ⟨w, hw, hwp⟩ := List.any_eq_true.mp hany
          cases hpq : HasQuorumMsgs share prepares with
          | false =>
            simp only [Bool.not_false, if_true]
            constructor
            · intro h
              exact Except.noConfusion h
            · intro h
              exfalso
              rcases h with h1 | ⟨_, _, hallun | ⟨hpq2, _⟩⟩
              · exact hr1 h1
              · rw [hallun w hw] at hwp
                exact Bool.noConfusion hwp
              · exact Bool.noConfusion hpq2
          | true =>
            simp only [Bool.not_true, Bool.false_eq_true, if_false]
            have hhp : highestPrepared roundChanges =
                Except.ok (findFirstMaxPrepared roundChanges) := by
              unfold highestPrepared
              rw [highestPreparedGo_eq roundChanges none hdec
                (by intro r hr; exact Option.noConfusion hr)]
              rw [pureHighest_none]
            rw [hhp]
            obtain ⟨x, hxmem, hxp, hxmax⟩ :=
              maxPreparedRound_attained roundChanges hany
            have hsome : (findFirstMaxPrepared roundChanges).isSome = true := by
              unfold findFirstMaxPrepared findMaxWith
              exact List.find?_isSome.mpr ⟨x, hxmem, by simp [hxp, hxmax]⟩
            obtain ⟨h0, hh0⟩ := Option.isSome_iff_exists.mp hsome
            rw [hh0]
            dsimp only
            have hmem0 : h0 ∈ roundChanges := by
              have : List.find? (fun rc => RCPrepared rc &&
                  (rcPreparedRound rc == maxPreparedRound roundChanges))
                  roundChanges = some h0 := hh0
              exact List.mem_of_find?_eq_some this
            have hget := rcDecodes_get h0 (hdec h0 hmem0)
            rw [hget]
            dsimp only
            by_cases hvv : proposedValue = rcPreparedValue h0
            · rw [if_neg (by simp [hvv])]
              cases hrp : runAll (fun rcj => validateRoundChangeJustification rcj
                  height (rcPreparedRound h0) (rcPreparedValue h0) share sigOK)
                  prepares with
              | error e =>
                constructor
                · intro h
                  exact Except.noConfusion h
                · intro h
                  exfalso
                  rcases h with h1 | ⟨_, _, hallun | ⟨_, h1, hfind, _, hvalid⟩⟩
                  · exact hr1 h1
                  · rw [hallun w hw] at hwp
                    exact Bool.noConfusion hwp
                  · have hinj := Option.some.inj hfind
                    subst hinj
                    rw [(runAll_ok_iff _ prepares).mpr hvalid] at hrp
                    exact Except.noConfusion hrp
              | ok u2 =>
                cases u2
                constructor
                · intro _
                  right
                  exact ⟨hall, trivial, Or.inr ⟨trivial, h0, rfl, hvv,
                    (runAll_ok_iff _ prepares).mp hrp⟩⟩
                · intro _
                  rfl
            · rw [if_pos (by simp [hvv])]
              constructor
              · intro h
                exact Except.noConfusion h
              · intro h
                exfalso
                rcases h with h1 | ⟨_, _, hallun | ⟨_, h1, hfind, hvv2, _⟩⟩
                · exact hr1 h1
                · rw [hallun w hw] at hwp
                  exact Bool.noConfusion hwp
                · have hinj := Option.some.inj hfind
                  subst hinj
                  exact hvv hvv2

/-- The claim's stated characterization of `Justify`: as in the spec,
the proposed value may match *any* accompanying ROUND-CHANGE with
maximal prepared round. -/
def JustifyClaimed (share : Share) (height : Height) (round : Round)
    (roundChanges prepares : List JSignedMessage) (proposedValue : Value)
    (sigOK : JSignedMessage → Bool) (crValid : JSignedMessage → Round → Bool) :
    Prop :=
  round = 1 ∨
  ((∀ rc ∈ roundChanges, isOkRes (validateRoundChangesPipeline share height
      round sigOK crValid rc) = true) ∧
   HasQuorumMsgs share roundChanges = true ∧
   ((∀ rc ∈ roundChanges, RCPrepared rc = false) ∨
    (∃ rc ∈ roundChanges, RCPrepared rc = true ∧
      (∀ rc2 ∈ roundChanges, RCPrepared rc2 = true →
        rcPreparedRound rc2 ≤ rcPreparedRound rc) ∧
      proposedValue = rcPreparedValue rc ∧
      HasQuorumMsgs share prepares = true ∧
      ∀ p ∈ prepares, isOkRes (validateRoundChangeJustification p height
        (rcPreparedRound rc) (rcPreparedValue rc) share sigOK) = true)))

/-- Committee 1,2,3,4 for the C2 scenarios. -/
def c2share : Share := ⟨[1, 2, 3, 4]⟩

/-- ROUND-CHANGE from operator 1, prepared at round 2 with value 65. -/
def c2rc1 : JSignedMessage :=
  ⟨[[31]], [1], ⟨MsgType.roundChangeMsgType, 0, 2, [5], JData.roundChangeData 2 [65]⟩⟩

/-- ROUND-CHANGE from operator 2, prepared at round 2 with value 66. -/
def c2rc2 : JSignedMessage :=
  ⟨[[32]], [2], ⟨MsgType.roundChangeMsgType, 0, 2, [5], JData.roundChangeData 2 [66]⟩⟩

/-- ROUND-CHANGE from operator 3, unprepared. -/
def c2rc3 : JSignedMessage :=
  ⟨[[33]], [3], ⟨MsgType.roundChangeMsgType, 0, 2, [5], JData.roundChangeData 0 []⟩⟩

/-- PREPARE for `(height 0, round 2, value 66)` from the given
operator. -/
def c2prep (who : OperatorID) : JSignedMessage :=
  ⟨[[40 + who]], [who], ⟨MsgType.prepareMsgType, 0, 2, [5], JData.prepareData [66]⟩⟩

/-- ROUND-CHANGE from operator 1, prepared at round 2 with value 66
(used by positive witnesses). -/
def c2rc1b : JSignedMessage :=
  ⟨[[34]], [1], ⟨MsgType.roundChangeMsgType, 0, 2, [5], JData.roundChangeData 2 [66]⟩⟩

/-- The counterexample round-change justification list. -/
def c2rcs : List JSignedMessage := [c2rc1, c2rc2, c2rc3]

/-- The counterexample prepare justification list. -/
def c2preps : List JSignedMessage := [c2prep 1, c2prep 2, c2prep 3]

/-- Signature oracle accepting everything (all signatures valid). -/
def allSigsOK : JSignedMessage → Bool := fun _ => true

/-- Change-round justification oracle accepting everything. -/
def allCROK : JSignedMessage → Round → Bool := fun _ _ => true

/-- C2 (counterexample): two accompanying ROUND-CHANGE messages tie at
the maximal prepared round 2 with different prepared values 65 and 66;
for proposed value 66 the claim's condition holds (66 is the prepared
value of *a* ROUND-CHANGE with maximal prepared round, with a full
PREPARE quorum), yet `Justify` rejects, because `highestPrepared`
keeps the *first* maximal message (prepared value 65). -/
theorem C2_counterexample :
    ¬ (Justify c2share 0 2 c2rcs c2preps [66] allSigsOK allCROK = Except.ok () ↔
       JustifyClaimed c2share 0 2 c2rcs c2preps [66] allSigsOK allCROK) := by
  intro h
  have hrhs : JustifyClaimed c2share 0 2 c2rcs c2preps [66] allSigsOK allCROK := by
    unfold JustifyClaimed
    decide
  have hko : isOkRes (Justify c2share 0 2 c2rcs c2preps [66] allSigsOK allCROK) =
      false := by decide
  rw [h.mpr hrhs] at hko
  exact Bool.noConfusion hko

/-- C2 (witness): the amended statement evaluated on a justified
round-2 proposal: three round-changes (two prepared at round 2 with
value 66, one unprepared) and a full prepare quorum for value 66. -/
theorem C2_witness :
    Justify c2share 0 2 [c2rc1b, c2rc2, c2rc3] c2preps [66] allSigsOK allCROK =
        Except.ok () ↔
      ((2 : Round) = 1 ∨
       ((∀ rc ∈ [c2rc1b, c2rc2, c2rc3], isOkRes (validateRoundChangesPipeline
            c2share 0 2 allSigsOK allCROK rc) = true) ∧
        HasQuorumMsgs c2share [c2rc1b, c2rc2, c2rc3] = true ∧
        ((∀ rc ∈ [c2rc1b, c2rc2, c2rc3], RCPrepared rc = false) ∨
         (HasQuorumMsgs c2share c2preps = true ∧
          ∃ h, findFirstMaxPrepared [c2rc1b, c2rc2, c2rc3] = some h ∧
            [66] = rcPreparedValue h ∧
            ∀ p ∈ c2preps, isOkRes (validateRoundChangeJustification p 0
              (rcPreparedRound h) (rcPreparedValue h) c2share allSigsOK) =
                true)))) :=
  C2_amended_justify c2share 0 2 [c2rc1b, c2rc2, c2rc3] c2preps [66]
    allSigsOK allCROK (by decide)

/-! ## C6 and C10: `ValidateProposalMsg`

From `src/protocol/v1/validator/validator.go` lines 215-248 (package
`proposal`).  The leader resolver is a parameter, as in the Go code
(`LeaderResolver`); `SignedMessage.MatchedSigners` (ssv-spec) is list
equality with the given signer list; `ProposalData.Validate`
(ssv-spec) requires nonempty proposal data. -/

/-- `ValidateProposalMsg` (validator.go): single signer, leader match,
payload decoding and validation, proposal justification, and the
round/accepted-proposal state check. -/
def ValidateProposalMsg (share : Share) (state : ProposalInstance)
    (resolver : Round → OperatorID) (sigOK : JSignedMessage → Bool)
    (crValid : JSignedMessage → Round → Bool) (signedMessage : SignedMessage) :
    Except String Unit :=
  let signers := signedMessage.GetSigners
  if signers.length ≠ 1 then Except.error "proposal msg allows 1 signer"
  else
    let leader := resolver signedMessage.message.round
    if signedMessage.signers ≠ [leader] then Except.error "proposal leader invalid"
    else
      match signedMessage.message.GetProposalData with
      | Except.error e => Except.error ("could not get proposal data: " ++ e)
      | Except.ok proposalData =>
        if proposalData.data.isEmpty then
          Except.error "proposalData invalid: ProposalData data is invalid"
        else
          match Justify share state.height signedMessage.message.round
              proposalData.roundChangeJustification
              proposalData.prepareJustification proposalData.data sigOK crValid with
          | Except.error e => Except.error ("proposal not justified: " ++ e)
          | Except.ok _ =>
            if (state.proposalAccepted = none ∧
                  signedMessage.message.round = state.round) ∨
               (state.proposalAccepted ≠ none ∧
                  state.round < signedMessage.message.round) then
              Except.ok ()
            else Except.error "proposal is not valid with current state"

/-- Modelled from the spec: the round-robin leader
`((height + round - 1) mod N) + 1` over the committee's operator
list (the leader selector is outside the sources under study). -/
def roundRobinLeader (share : Share) (height : Height) (round : Round) :
    OperatorID :=
  ((height + round - 1) % share.committee.length) + 1

/-- C6: `ValidateProposalMsg` returns an error whenever the message's
signer list is not exactly the leader of its round; in particular a
single-signer proposal signed by a non-leader is rejected with
"proposal leader invalid" (a message with several signers is rejected
earlier with "proposal msg allows 1 signer"). -/
theorem C6_leader_check (share : Share) (state : ProposalInstance)
    (resolver : Round → OperatorID) (sigOK : JSignedMessage → Bool)
    (crValid : JSignedMessage → Round → Bool) (msg : SignedMessage)
    (h : msg.signers ≠ [resolver msg.message.round]) :
    (msg.signers.length = 1 →
      ValidateProposalMsg share state resolver sigOK crValid msg =
        Except.error "proposal leader invalid") ∧
    isOkRes (ValidateProposalMsg share state resolver sigOK crValid msg) =
      false := by
  constructor
  · intro hlen
    unfold ValidateProposalMsg
    rw [if_neg (by simp [SignedMessage.GetSigners, hlen])]
    rw [if_pos (by simpa using h)]
  · by_cases hlen : msg.signers.length = 1
    · unfold ValidateProposalMsg
      rw [if_neg (by simp [SignedMessage.GetSigners, hlen])]
      rw [if_pos (by simpa using h)]
      rfl
    · unfold ValidateProposalMsg
      rw [if_pos (by simp [SignedMessage.GetSigners, hlen])]
      rfl

/-- C6 (witness): committee 1,2,3,4 at height 0, round 1 — the
round-robin leader is operator 1; a proposal signed only by operator 2
is rejected with "proposal leader invalid". -/
theorem C6_witness :
    (let share : Share := ⟨[1, 2, 3, 4]⟩
     let state : ProposalInstance := ⟨0, 1, [5], RoundState.notStarted, none⟩
     let msg : SignedMessage :=
       ⟨[[22]], [2], ⟨MsgType.proposalMsgType, 0, 1, [5],
         MsgData.proposalData [7] [] []⟩⟩
     (msg.signers.length = 1 →
       ValidateProposalMsg share state (roundRobinLeader share state.height)
           allSigsOK allCROK msg =
         Except.error "proposal leader invalid") ∧
     isOkRes (ValidateProposalMsg share state
       (roundRobinLeader share state.height) allSigsOK allCROK msg) = false) :=
  C6_leader_check ⟨[1, 2, 3, 4]⟩ ⟨0, 1, [5], RoundState.notStarted, none⟩
    (roundRobinLeader ⟨[1, 2, 3, 4]⟩ 0) allSigsOK allCROK
    ⟨[[22]], [2], ⟨MsgType.proposalMsgType, 0, 1, [5],
      MsgData.proposalData [7] [] []⟩⟩ (by decide)

/-- C10: when the leader, payload and justification checks pass,
`ValidateProposalMsg` accepts exactly in the two claimed state cases
and otherwise fails with "proposal is not valid with current state". -/
theorem C10_state_check (share : Share) (state : ProposalInstance)
    (resolver : Round → OperatorID) (sigOK : JSignedMessage → Bool)
    (crValid : JSignedMessage → Round → Bool) (msg : SignedMessage)
    (hsig : msg.signers = [resolver msg.message.round])
    (d : Value) (rcj pj : List JSignedMessage)
    (hdata : msg.message.data = MsgData.proposalData d rcj pj)
    (hdne : d ≠ [])
    (hjust : Justify share state.height msg.message.round rcj pj d sigOK crValid =
      Except.ok ()) :
    (ValidateProposalMsg share state resolver sigOK crValid msg = Except.ok () ↔
      ((state.proposalAccepted = none ∧ msg.message.round = state.round) ∨
       (state.proposalAccepted ≠ none ∧ state.round < msg.message.round))) ∧
    (¬ ((state.proposalAccepted = none ∧ msg.message.round = state.round) ∨
        (state.proposalAccepted ≠ none ∧ state.round < msg.message.round)) →
      ValidateProposalMsg share state resolver sigOK crValid msg =
        Except.error "proposal is not valid with current state") := by
  have hpd : msg.message.GetProposalData = Except.ok ⟨d, rcj, pj⟩ := by
    unfold Message.GetProposalData
    rw [hdata]
  have hmain : ValidateProposalMsg share state resolver sigOK crValid msg =
      (if (state.proposalAccepted = none ∧ msg.message.round = state.round) ∨
          (state.proposalAccepted ≠ none ∧ state.round < msg.message.round) then
        Except.ok ()
      else Except.error "proposal is not valid with current state") := by
    unfold ValidateProposalMsg
    rw [if_neg (by simp [SignedMessage.GetSigners, hsig])]
    rw [if_neg (by simp [hsig])]
    rw [hpd]
    dsimp only
    rw [if_neg (by simpa using hdne)]
    rw [hjust]
  constructor
  · rw [hmain]
    by_cases hc : (state.proposalAccepted = none ∧ msg.message.round = state.round) ∨
        (state.proposalAccepted ≠ none ∧ state.round < msg.message.round)
    · simp [hc]
    · simp [hc]
  · intro hc
    rw [hmain, if_neg hc]

/-- C10 (witness): a justified round-2 proposal (data 66 with a
round-change and prepare quorum) against an instance at round 1 with
no accepted proposal: the acceptance condition fails and the call
returns "proposal is not valid with current state"; the equivalence is
checked at that input. -/
theorem C10_witness :
    ((ValidateProposalMsg ⟨[1, 2, 3, 4]⟩ ⟨0, 1, [5], RoundState.notStarted, none⟩
        (fun _ => 2) allSigsOK allCROK
        ⟨[[22]], [2], ⟨MsgType.proposalMsgType, 0, 2, [5],
          MsgData.proposalData [66] [c2rc1b, c2rc2, c2rc3] c2preps⟩⟩ =
          Except.ok () ↔
      ((ProposalInstance.mk 0 1 [5] RoundState.notStarted none).proposalAccepted = none ∧
        (2 : Round) = (ProposalInstance.mk 0 1 [5] RoundState.notStarted none).round) ∨
      ((ProposalInstance.mk 0 1 [5] RoundState.notStarted none).proposalAccepted ≠ none ∧
        (ProposalInstance.mk 0 1 [5] RoundState.notStarted none).round < 2)) ∧
     (¬ (((ProposalInstance.mk 0 1 [5] RoundState.notStarted none).proposalAccepted = none ∧
          (2 : Round) = (ProposalInstance.mk 0 1 [5] RoundState.notStarted none).round) ∨
         ((ProposalInstance.mk 0 1 [5] RoundState.notStarted none).proposalAccepted ≠ none ∧
          (ProposalInstance.mk 0 1 [5] RoundState.notStarted none).round < 2)) →
       ValidateProposalMsg ⟨[1, 2, 3, 4]⟩ ⟨0, 1, [5], RoundState.notStarted, none⟩
         (fun _ => 2) allSigsOK allCROK
         ⟨[[22]], [2], ⟨MsgType.proposalMsgType, 0, 2, [5],
           MsgData.proposalData [66] [c2rc1b, c2rc2, c2rc3] c2preps⟩⟩ =
           Except.error "proposal is not valid with current state")) :=
  C10_state_check ⟨[1, 2, 3, 4]⟩ ⟨0, 1, [5], RoundState.notStarted, none⟩
    (fun _ => 2) allSigsOK allCROK
    ⟨[[22]], [2], ⟨MsgType.proposalMsgType, 0, 2, [5],
      MsgData.proposalData [66] [c2rc1b, c2rc2, c2rc3] c2preps⟩⟩
    rfl [66] [c2rc1b, c2rc2, c2rc3] c2preps rfl (by decide) (by rfl)

/-! ## C7: `UponFutureMsg`

From `src/protocol/qbft/controller/future_msg.go` (v2 controller).
`spectypes.Share.HasPartialQuorum` and `SignedMessage.Validate` are
ssv-spec declarations outside the sources under study, modelled from
the spec (partial quorum `f+1` kept in the share's `PartialQuorum`
field; basic well-formedness of a signed message); BLS verification
(`VerifyByOperators`) is the boolean oracle `sigOK`.  The Go
per-signer map is modelled as an association list with unique keys. -/

/-- Modelled from the spec: the v2 `spectypes.Share`, keeping the
committee roster and the `PartialQuorum` field (`f+1`). -/
structure ShareV2 where
  committee : List OperatorID
  partialQuorum : Nat
  deriving DecidableEq, Repr

/-- Modelled from the spec: `Share.HasPartialQuorum` compares a count
against the share's `PartialQuorum` field. -/
def ShareV2.HasPartialQuorum (s : ShareV2) (cnt : Nat) : Bool :=
  s.partialQuorum ≤ cnt

/-- The v2 controller state relevant to future-message handling. -/
structure FutureController where
  share : ShareV2
  height : Height
  futureMsgsContainer : List (OperatorID × Height)
  deriving DecidableEq, Repr

/-- Modelled from the spec: `SignedMessage.Validate` (ssv-spec) —
nonempty, duplicate-free signers and a well-formed signature. -/
def msgValidate (m : SignedMessage) : Except String Unit :=
  if m.signers.isEmpty then Except.error "message signers is empty"
  else if ¬ m.signers.Nodup then Except.error "non unique signer"
  else if m.signature.isEmpty then Except.error "message signature is invalid"
  else Except.ok ()

/-- `validateFutureMsg` (future_msg.go): basic validation, a single
signer, and signature verification (oracle `sigOK`). -/
def validateFutureMsg (msg : SignedMessage) (sigOK : SignedMessage → Bool) :
    Except String Unit :=
  match msgValidate msg with
  | Except.error e => Except.error ("invalid decided msg: " ++ e)
  | Except.ok _ =>
    if msg.GetSigners.length ≠ 1 then Except.error "allows 1 signer"
    else if sigOK msg then Except.ok ()
    else Except.error "msg signature invalid"

/-- `addHigherHeightMsg` (future_msg.go): drop entries at or below the
local height, then add the message's signer unless it already has a
live entry; returns whether the message was added. -/
def addHigherHeightMsg (c : FutureController) (msg : SignedMessage) :
    FutureController × Bool :=
  let signer := msg.GetSigners.headD 0
  let cleanedQueue := c.futureMsgsContainer.filter (fun e => decide (c.height < e.2))
  let signerExists := cleanedQueue.any (fun e => decide (e.1 = signer))
  let newQueue :=
    if signerExists then cleanedQueue
    else cleanedQueue ++ [(signer, msg.message.height)]
  ({ c with futureMsgsContainer := newQueue }, !signerExists)

/-- `f1SyncTrigger` (future_msg.go): true when the future buffer holds
a partial quorum of unique signers. -/
def f1SyncTrigger (c : FutureController) : Bool :=
  c.share.HasPartialQuorum c.futureMsgsContainer.length

/-- Outcome of `UponFutureMsg`: updated controller, whether
`SyncHighestDecided` was dispatched, and the returned error. -/
structure FutureOutcome where
  ctrl : FutureController
  syncTriggered : Bool
  result : Except String Unit
  deriving Repr

/-- `UponFutureMsg` (future_msg.go). -/
def UponFutureMsg (c : FutureController) (msg : SignedMessage)
    (sigOK : SignedMessage → Bool) : FutureOutcome :=
  match validateFutureMsg msg sigOK with
  | Except.error e => ⟨c, false, Except.error ("invalid future msg: " ++ e)⟩
  | Except.ok _ =>
    let r := addHigherHeightMsg c msg
    if !r.2 then ⟨r.1, false, Except.error "discarded future msg"⟩
    else if f1SyncTrigger r.1 then ⟨r.1, true, Except.ok ()⟩
    else ⟨r.1, false, Except.ok ()⟩

/-- Signature oracle over top-level messages accepting everything. -/
def allSigsOK2 : SignedMessage → Bool := fun _ => true

/-- Valid single-signer message from operator 1 at height 12, used by
the C7 counterexample. -/
def c7msg : SignedMessage :=
  ⟨[[9]], [1], ⟨MsgType.commitMsgType, 12, 1, [5], MsgData.rawBytes []⟩⟩

/-- C7 (counterexample): local height 5, buffer holds operator 1 at
height 10; a valid message from operator 1 at height 12 arrives.  The
claim says the buffer entry is overwritten to height 12, but
`addHigherHeightMsg` keeps the old entry and `UponFutureMsg` discards
the message with an error. -/
theorem C7_counterexample :
    ¬ ((UponFutureMsg ⟨⟨[1, 2, 3, 4], 2⟩, 5, [(1, 10)]⟩ c7msg
        allSigsOK2).ctrl.futureMsgsContainer = [(1, 12)]) := by decide

/-- C7 (amended): for a valid single-signer message above the local
height, `UponFutureMsg` first drops buffer entries at or below the
local height; if the signer still has a live entry the message is
*discarded* (error "discarded future msg", previous entry kept, no
sync); otherwise the signer is added with the message's height and
`SyncHighestDecided` is triggered exactly when the resulting buffer
reaches the share's partial quorum (`f+1`). -/
theorem C7_amended_future (c : FutureController) (msg : SignedMessage)
    (s : OperatorID) (sigOK : SignedMessage → Bool)
    (hv : validateFutureMsg msg sigOK = Except.ok ())
    (hs : msg.signers = [s])
    (hh : c.height < msg.message.height) :
    ((c.futureMsgsContainer.filter (fun e => decide (c.height < e.2))).any
        (fun e => decide (e.1 = s)) = true →
      UponFutureMsg c msg sigOK =
        ⟨⟨c.share, c.height,
          c.futureMsgsContainer.filter (fun e => decide (c.height < e.2))⟩, false,
          Except.error "discarded future msg"⟩) ∧
    ((c.futureMsgsContainer.filter (fun e => decide (c.height < e.2))).any
        (fun e => decide (e.1 = s)) = false →
      UponFutureMsg c msg sigOK =
        ⟨⟨c.share, c.height,
          c.futureMsgsContainer.filter (fun e => decide (c.height < e.2)) ++
            [(s, msg.message.height)]⟩,
          c.share.HasPartialQuorum
            ((c.futureMsgsContainer.filter (fun e => decide (c.height < e.2))).length + 1),
          Except.ok ()⟩) := by
  have hhead : msg.GetSigners.headD 0 = s := by
    simp [SignedMessage.GetSigners, hs]
  constructor
  · intro hex
    unfold UponFutureMsg
    rw [hv]
    unfold addHigherHeightMsg
    rw [hhead]
    simp [hex]
  · intro hex
    unfold UponFutureMsg
    rw [hv]
    unfold addHigherHeightMsg
    rw [hhead]
    simp only [hex, Bool.not_false, if_true, if_false]
    unfold f1SyncTrigger
    simp only [List.length_append, List.length_cons, List.length_nil]
    cases hq : c.share.HasPartialQuorum
        ((c.futureMsgsContainer.filter (fun e => decide (c.height < e.2))).length + 1) with
    | true => simp [hq]
    | false => simp [hq]

/-- C7 (witness): local height 5, buffer holds operator 2 at height 9,
partial quorum 2; a valid message from operator 1 at height 12 is
added and the sync is triggered. -/
theorem C7_witness :
    ((([(2, 9)] : List (OperatorID × Height)).filter
        (fun e => decide ((5 : Height) < e.2))).any (fun e => decide (e.1 = 1)) = true →
      UponFutureMsg ⟨⟨[1, 2, 3, 4], 2⟩, 5, [(2, 9)]⟩ c7msg allSigsOK2 =
        ⟨⟨⟨[1, 2, 3, 4], 2⟩, 5,
          ([(2, 9)] : List (OperatorID × Height)).filter
            (fun e => decide ((5 : Height) < e.2))⟩, false,
          Except.error "discarded future msg"⟩) ∧
    ((([(2, 9)] : List (OperatorID × Height)).filter
        (fun e => decide ((5 : Height) < e.2))).any (fun e => decide (e.1 = 1)) = false →
      UponFutureMsg ⟨⟨[1, 2, 3, 4], 2⟩, 5, [(2, 9)]⟩ c7msg allSigsOK2 =
        ⟨⟨⟨[1, 2, 3, 4], 2⟩, 5,
          ([(2, 9)] : List (OperatorID × Height)).filter
            (fun e => decide ((5 : Height) < e.2)) ++ [(1, c7msg.message.height)]⟩,
          ShareV2.HasPartialQuorum ⟨[1, 2, 3, 4], 2⟩
            ((([(2, 9)] : List (OperatorID × Height)).filter
              (fun e => decide ((5 : Height) < e.2))).length + 1),
          Except.ok ()⟩) :=
  C7_amended_future ⟨⟨[1, 2, 3, 4], 2⟩, 5, [(2, 9)]⟩ c7msg 1 allSigsOK2
    (by rfl) rfl (by decide)

/-! ## C8: `HistoryHandler` and `SyncMessage.UpdateResults`

`SyncMessage` and `UpdateResults` are from `src/unnamed/part_001`
(package `message`); the handler body is from the `HistoryHandler`
part of `src/protocol/types/ssvshare_test.go` (package `handlers`).
Storage (`GetInstancesInRange`) is outside the sources under study and
modelled from the spec: it returns every persisted decided certificate
with height in the requested range, in ascending height (the store is
a height-ascending list of decided messages, and storage reads do not
fail, so the handler's storage-error path takes `none`).  The Go code
indexes `Params.Height[0]` and `Params.Height[1]` unconditionally
(panicking on shorter slices); the embedding reads them with default 0
and the theorems pin a two-element range. -/

/-- Response status codes (`message.StatusCode`). -/
inductive StatusCode where
  | statusUnknown
  | statusSuccess
  | statusNotFound
  | statusError
  | statusBadRequest
  | statusInternalError
  | statusBackoff
  deriving DecidableEq, Repr

/-- Sync protocol selector (`message.SyncMsgType`). -/
inductive SyncMsgType where
  | lastDecidedType
  | lastChangeRoundType
  | decidedHistoryType
  deriving DecidableEq, Repr

/-- `message.SyncParams`. -/
structure SyncParams where
  height : List Height
  identifier : Value
  deriving DecidableEq, Repr

/-- `message.SyncMessage`. -/
structure SyncMessage where
  protocol : SyncMsgType
  params : SyncParams
  data : List SignedMessage
  status : StatusCode
  deriving DecidableEq, Repr

/-- `SyncMessage.UpdateResults` (`src/unnamed/part_001`): set the
status, store the results and update the params heights to the actual
first (and, when several, last) result heights. -/
def SyncMessage.UpdateResults (sm : SyncMessage) (err : Option String)
    (results : List SignedMessage) : SyncMessage :=
  match err with
  | some _ => { sm with status := StatusCode.statusInternalError }
  | none =>
    match results with
    | [] => { sm with status := StatusCode.statusNotFound }
    | r0 :: rest =>
      let data := r0 :: rest
      let heights :=
        if 1 < data.length then
          [r0.message.height, (data.getLastD r0).message.height]
        else [r0.message.height]
      { sm with
          data := data
          params := { sm.params with height := heights }
          status := StatusCode.statusSuccess }

/-- Modelled from the spec: `GetInstancesInRange` returns every
persisted decided certificate with height in `[fromH, toH]`, in
ascending height (storage is outside the sources under study). -/
def GetInstancesInRange (store : List SignedMessage) (fromH toH : Height) :
    List SignedMessage :=
  store.filter (fun m =>
    decide (fromH ≤ m.message.height) && decide (m.message.height ≤ toH))

/-- Signed reinterpretation of a `uint64` value as a Go `int`
(two's complement, 64-bit). -/
def goIntOfUint64 (n : Nat) : Int :=
  let m : Nat := n % 2 ^ 64
  if m < 2 ^ 63 then (m : Int) else (m : Int) - 2 ^ 64

/-- The decided-history core of `HistoryHandler`: on a decided-history
request, clamp the requested upper bound to `from + maxBatchSize` when
the range exceeds `maxBatchSize`, fetch the decided certificates in
the (possibly clamped) range, and fill the response with
`UpdateResults`.  Other protocols yield no response (`nil, nil`). -/
def HistoryHandlerCore (sm : SyncMessage) (store : List SignedMessage)
    (maxBatchSize : Nat) : Option SyncMessage :=
  if sm.protocol ≠ SyncMsgType.decidedHistoryType then none
  else
    let h0 := sm.params.height.headD 0
    let h1 := sm.params.height.getD 1 0
    let items := goIntOfUint64 (goUint64OfInt ((h1 : Int) - (h0 : Int)))
    let sm1 :=
      if (maxBatchSize : Int) < items then
        { sm with params := { sm.params with
            height := sm.params.height.set 1 ((h0 + maxBatchSize) % 2 ^ 64) } }
      else sm
    let results := GetInstancesInRange store (sm1.params.height.headD 0)
      (sm1.params.height.getD 1 0)
    some (sm1.UpdateResults none results)

/-- A strictly increasing list of naturals bounded in `[a, b]` has at
most `b + 1 - a` elements. -/
theorem length_le_of_sorted_bounded :
    ∀ (l : List Nat) (a b : Nat), l.Pairwise (fun x y => x < y) →
      (∀ x ∈ l, a ≤ x ∧ x ≤ b) → l.length ≤ b + 1 - a := by
  intro l
  induction l with
  | nil => intro a b _ _; simp
  | cons x tl ih =>
    intro a b hpw hb
    obtain ⟨hax, hxb⟩ := hb x (by simp)
    have hsub : ∀ y ∈ tl, x + 1 ≤ y ∧ y ≤ b := by
      intro y hy
      have h1 : x < y := (List.pairwise_cons.mp hpw).1 y hy
      exact ⟨h1, (hb y (by simp [hy])).2⟩
    have htl := ih (x + 1) b (List.Pairwise.of_cons hpw) hsub
    simp only [List.length_cons]
    omega

/-- Decided message at the given height, for the C8 scenario store. -/
def c8msg (k : Nat) : SignedMessage :=
  ⟨[[50]], [1], ⟨MsgType.commitMsgType, k, 1, [5], MsgData.rawBytes []⟩⟩

/-- Scenario store with decided certificates at heights 0..30. -/
def c8store : List SignedMessage := (List.range 31).map c8msg

/-- C8: a decided-history request whose range exceeds `maxBatchSize`
is clamped to `[from, from + maxBatchSize]` before fetching, and the
response is `UpdateResults` over the certificates of the clamped
range — at most `maxBatchSize + 1` of them, in ascending height.  In
particular the request `[0, 1000]` with `maxBatchSize = 25` against a
store holding heights 0..30 yields a Success response whose data is
the 26 certificates at heights 0..25 and whose params height is
`[0, 25]`. -/
theorem C8_history_clamp (sm : SyncMessage) (store : List SignedMessage)
    (maxBatchSize fromH toH : Nat)
    (hproto : sm.protocol = SyncMsgType.decidedHistoryType)
    (hhts : sm.params.height = [fromH, toH])
    (hle : fromH ≤ toH) (hbound : toH < 2 ^ 63)
    (hwrap : fromH + maxBatchSize < 2 ^ 64)
    (hclamp : maxBatchSize < toH - fromH)
    (hsorted : store.Pairwise (fun x y => x.message.height < y.message.height)) :
    HistoryHandlerCore sm store maxBatchSize =
      some (SyncMessage.UpdateResults
        { sm with params := { sm.params with
            height := [fromH, fromH + maxBatchSize] } }
        none (GetInstancesInRange store fromH (fromH + maxBatchSize))) ∧
    (GetInstancesInRange store fromH (fromH + maxBatchSize)).length ≤
      maxBatchSize + 1 ∧
    (GetInstancesInRange store fromH (fromH + maxBatchSize)).Pairwise
      (fun x y => x.message.height < y.message.height) ∧
    HistoryHandlerCore
        ⟨SyncMsgType.decidedHistoryType, ⟨[0, 1000], [5]⟩, [],
          StatusCode.statusUnknown⟩ c8store 25 =
      some ⟨SyncMsgType.decidedHistoryType, ⟨[0, 25], [5]⟩,
        (List.range 26).map c8msg, StatusCode.statusSuccess⟩ := by
  have h1 : goUint64OfInt ((toH : Int) - (fromH : Int)) = toH - fromH := by
    unfold goUint64OfInt
    have hnn : (0 : Int) ≤ (toH : Int) - (fromH : Int) := by
      have h := Int.ofNat_le.mpr hle
      omega
    have hlt : (toH : Int) - (fromH : Int) < 2 ^ 64 := by
      have h : (toH : Int) < 2 ^ 63 := by exact_mod_cast hbound
      have h63 : (2 : Int) ^ 63 < 2 ^ 64 := by norm_num
      omega
    have hmod : ((toH : Int) - (fromH : Int)).emod (2 ^ 64) =
        (toH : Int) - (fromH : Int) := Int.emod_eq_of_lt hnn hlt
    rw [hmod]
    omega
  have h2 : goIntOfUint64 (toH - fromH) = ((toH - fromH : Nat) : Int) := by
    unfold goIntOfUint64
    have hm : (toH - fromH) % 2 ^ 64 = toH - fromH :=
      Nat.mod_eq_of_lt (by omega)
    simp only [hm]
    rw [if_pos (by exact_mod_cast (show (toH - fromH) < 2 ^ 63 by omega))]
  refine ⟨?_, ?_, List.Pairwise.filter _ hsorted, by decide⟩
  · unfold HistoryHandlerCore
    rw [if_neg (by simp [hproto])]
    rw [hhts]
    simp only [List.headD_cons, List.getD_eq_getElem?_getD, List.getElem?_cons_succ,
      List.getElem?_cons_zero, Option.getD_some, List.set]
    rw [h1, h2]
    rw [if_pos (by exact_mod_cast hclamp)]
    have hmod : (fromH + maxBatchSize) % 2 ^ 64 = fromH + maxBatchSize :=
      Nat.mod_eq_of_lt hwrap
    rw [hmod]
    simp
  · have hmap : (GetInstancesInRange store fromH (fromH + maxBatchSize)).length =
        ((GetInstancesInRange store fromH (fromH + maxBatchSize)).map
          (fun m => (m.message.height : Nat))).length := by
      rw [List.length_map]
    rw [hmap]
    have hb := length_le_of_sorted_bounded
      ((GetInstancesInRange store fromH (fromH + maxBatchSize)).map
        (fun m => (m.message.height : Nat))) fromH (fromH + maxBatchSize) ?_ ?_
    · omega
    · rw [List.pairwise_map]
      exact List.Pairwise.filter _ hsorted
    · intro x hx
      rw [List.mem_map] at hx
      obtain ⟨m, hm, rfl⟩ := hx
      unfold GetInstancesInRange at hm
      rw [List.mem_filter] at hm
      have := hm.2
      simp only [Bool.and_eq_true, decide_eq_true_eq] at this
      exact this

/-- C8 (witness): the theorem evaluated on the request `[0, 1000]`
with `maxBatchSize = 25` against the store of heights 0..30. -/
theorem C8_witness :
    (HistoryHandlerCore ⟨SyncMsgType.decidedHistoryType, ⟨[0, 1000], [5]⟩, [],
        StatusCode.statusUnknown⟩ c8store 25 =
      some (SyncMessage.UpdateResults
        ⟨SyncMsgType.decidedHistoryType, ⟨[0, 0 + 25], [5]⟩, [],
          StatusCode.statusUnknown⟩
        none (GetInstancesInRange c8store 0 (0 + 25))) ∧
     (GetInstancesInRange c8store 0 (0 + 25)).length ≤ 25 + 1 ∧
     (GetInstancesInRange c8store 0 (0 + 25)).Pairwise
       (fun x y => x.message.height < y.message.height) ∧
     HistoryHandlerCore
         ⟨SyncMsgType.decidedHistoryType, ⟨[0, 1000], [5]⟩, [],
           StatusCode.statusUnknown⟩ c8store 25 =
       some ⟨SyncMsgType.decidedHistoryType, ⟨[0, 25], [5]⟩,
         (List.range 26).map c8msg, StatusCode.statusSuccess⟩) :=
  C8_history_clamp
    ⟨SyncMsgType.decidedHistoryType, ⟨[0, 1000], [5]⟩, [], StatusCode.statusUnknown⟩
    c8store 25 0 1000 rfl rfl (by norm_num) (by norm_num) (by norm_num)
    (by norm_num) (by decide)

/-! ## C9: round and height monotonicity

The round-updating operation in the sources under study is
`UponProposalMsg` (`src/unnamed/part_003`, bump guarded by
`msg.Round > currentRound`); the height updates go through `setHeight`
(`src/protocol/v1/qbft/controller/controller.go`), called from
`StartInstance` after `canStartNewInstance` and from
`setInitialHeight` during `Init`.  `canStartNewInstance` is outside
the sources under study: modelled from the spec, it requires
`height == controller.height + 1`, or `height == 0` when nothing was
decided yet (controller height still at `FirstHeight = 0`).  The
round-timer expiry (`round ← round + 1`) is likewise modelled from the
spec.  `setInitialHeight` runs once during `Init`, while the height is
still at `FirstHeight = 0`. -/

/-- The operations of the instance and controller that update the
instance round or the controller height, as a step relation over
(instance state, controller height) pairs. -/
inductive MonoStep : ProposalInstance × Height → ProposalInstance × Height → Prop where
  | proposal (i : ProposalInstance) (h : Height) (msg : SignedMessage) :
      MonoStep (i, h) ((UponProposalMsg i msg).state, h)
  | timerExpiry (i : ProposalInstance) (h : Height) :
      MonoStep (i, h) ({ i with round := i.round + 1 }, h)
  | startInstance (i : ProposalInstance) (h hNew : Height)
      (hcan : hNew = h + 1 ∨ (hNew = 0 ∧ h = 0)) :
      MonoStep (i, h) (i, hNew)
  | initialHeight (i : ProposalInstance) (hStored : Height) :
      MonoStep (i, 0) (i, hStored)

/-- `UponProposalMsg` never lowers the instance round. -/
theorem uponProposal_round_mono (i : ProposalInstance) (msg : SignedMessage) :
    i.round ≤ (UponProposalMsg i msg).state.round := by
  unfold UponProposalMsg
  by_cases hlt : i.round < msg.message.round
  · cases hpd : msg.message.GetProposalData with
    | error e => simp [hlt, hpd]; exact Nat.le_of_lt hlt
    | ok pd => simp [hlt, hpd]; exact Nat.le_of_lt hlt
  · cases hpd : msg.message.GetProposalData with
    | error e => simp [hlt, hpd]
    | ok pd => simp [hlt, hpd]

/-- C9: along every sequence of round- and height-updating operations
of the instance and controller, the instance round and the controller
height never decrease. -/
theorem C9_monotonic (s s2 : ProposalInstance × Height)
    (hsteps : Relation.ReflTransGen MonoStep s s2) :
    s.1.round ≤ s2.1.round ∧ s.2 ≤ s2.2 := by
  induction hsteps with
  | refl => exact ⟨Nat.le_refl _, Nat.le_refl _⟩
  | tail hstep hlast ih =>
    rename_i b c
    refine ⟨Nat.le_trans ih.1 ?_, Nat.le_trans ih.2 ?_⟩
    · cases hlast with
      | proposal i h msg => exact uponProposal_round_mono i msg
      | timerExpiry i h => exact Nat.le_succ _
      | startInstance i h hNew hcan => exact Nat.le_refl _
      | initialHeight i hStored => exact Nat.le_refl _
    · cases hlast with
      | proposal i h msg => exact Nat.le_refl _
      | timerExpiry i h => exact Nat.le_refl _
      | startInstance i h hNew hcan =>
        rcases hcan with rfl | ⟨rfl, rfl⟩
        · exact Nat.le_succ _
        · exact Nat.le_refl _
      | initialHeight i hStored => exact Nat.zero_le _

/-- C9 (witness): a concrete run — accept a round-2 proposal at
height 0, then start the next instance at height 1; the round goes
from 1 to 2 and the height from 0 to 1, never decreasing. -/
theorem C9_witness :
    ((⟨0, 1, [5], RoundState.notStarted, none⟩ : ProposalInstance),
      (0 : Height)).1.round ≤
      ((UponProposalMsg ⟨0, 1, [5], RoundState.notStarted, none⟩
        ⟨[[21]], [2], ⟨MsgType.proposalMsgType, 0, 2, [5],
          MsgData.proposalData [7] [] []⟩⟩).state, (1 : Height)).1.round ∧
    ((⟨0, 1, [5], RoundState.notStarted, none⟩ : ProposalInstance),
      (0 : Height)).2 ≤
      ((UponProposalMsg ⟨0, 1, [5], RoundState.notStarted, none⟩
        ⟨[[21]], [2], ⟨MsgType.proposalMsgType, 0, 2, [5],
          MsgData.proposalData [7] [] []⟩⟩).state, (1 : Height)).2 :=
  C9_monotonic _ _
    (Relation.ReflTransGen.tail
      (Relation.ReflTransGen.single
        (MonoStep.proposal ⟨0, 1, [5], RoundState.notStarted, none⟩ 0
          ⟨[[21]], [2], ⟨MsgType.proposalMsgType, 0, 2, [5],
            MsgData.proposalData [7] [] []⟩⟩))
      (MonoStep.startInstance _ 0 1 (Or.inl rfl)))

end SSV
